import Mathlib

/-!
Shallow embedding of `pilota/src/thrift/binary_unsafe.rs`: the Thrift
binary-protocol length pass, the contiguous-buffer (`BytesMut`) writer, the
chained-buffer (`LinkedBytes`) writer, the zero-copy buffer reader and the
asynchronous streaming reader.

Bytes are modelled as `Nat` values (the source's `u8`), byte buffers as
`List Nat`, Rust's fixed-width signed integers as `Int` with explicit
`% 2^w` wrapping at the cast sites, and `f64` by its 64-bit bit pattern
(the source writes doubles via `to_bits`/`from_bits`).  Fallible code
returns `Except DecodeError`.  The unchecked reads/writes of the source
(`get_unchecked`, `ptr::copy_nonoverlapping`) are modelled by total list
operations; theorems carry the in-bounds preconditions the source states
as unsafety obligations.
-/

namespace Pilota

/-! ## Big-endian byte encoding helpers (`to_be_bytes` / `from_be_bytes`) -/

/-- The two big-endian bytes of a 16-bit word. -/
def be16 (w : Nat) : List Nat :=
  [w / 2 ^ 8 % 256, w % 256]

/-- The four big-endian bytes of a 32-bit word. -/
def be32 (w : Nat) : List Nat :=
  [w / 2 ^ 24 % 256, w / 2 ^ 16 % 256, w / 2 ^ 8 % 256, w % 256]

/-- The eight big-endian bytes of a 64-bit word. -/
def be64 (w : Nat) : List Nat :=
  [w / 2 ^ 56 % 256, w / 2 ^ 48 % 256, w / 2 ^ 40 % 256, w / 2 ^ 32 % 256,
   w / 2 ^ 24 % 256, w / 2 ^ 16 % 256, w / 2 ^ 8 % 256, w % 256]

/-- Big-endian decoding of a byte list back into a word. -/
def decBe (bs : List Nat) : Nat :=
  bs.foldl (fun a b => a * 256 + b) 0

/-- Two's-complement signed view of a `w`-bit word (`iN::from_be_bytes`). -/
def sview (w : Nat) (n : Nat) : Int :=
  if n < 2 ^ (w - 1) then (n : Int) else (n : Int) - 2 ^ w

/-- The `w`-bit word of a signed integer (`iN::to_be_bytes`, `as uN`). -/
def uview (w : Nat) (i : Int) : Nat :=
  (i % (2 ^ w : Nat)).toNat

/-- Rust's `i32 as usize` on a 64-bit target: sign-extends to 64 bits. -/
def i32AsUsize (i : Int) : Nat :=
  (i % (2 ^ 64 : Nat)).toNat

/-! ## Wire vocabulary and error taxonomy

`TType`, `TMessageType`, the identifier records and the error types live in
the crate's `thrift` module (outside `binary_unsafe.rs`); they are modelled
here from the spec's data model (§3) and the Apache Thrift binary-protocol
document the source links. -/

/-- Modelled from the spec: the closed `WireType`/`TType` enumeration
{Stop, Void, Bool, Byte, Double, I16, I32, I64, String, Struct, Map, Set,
List, Uuid}, defined in the crate's `thrift` module, outside
`binary_unsafe.rs`. -/
inductive TType where
  | stop
  | void
  | bool
  | byte
  | double
  | i16
  | i32
  | i64
  | string
  | struct
  | map
  | set
  | list
  | uuid
deriving DecidableEq, Repr

/-- Modelled from the spec: each `TType` variant's fixed one-byte wire code
(`TType as u8` / `.into()`), per the Thrift binary-protocol document the
source links and the spec's scenarios (Stop = 0x00, I32 = 0x08,
String = 0x0B). -/
def TType.toU8 : TType → Nat
  | .stop => 0
  | .void => 1
  | .bool => 2
  | .byte => 3
  | .double => 4
  | .i16 => 6
  | .i32 => 8
  | .i64 => 10
  | .string => 11
  | .struct => 12
  | .map => 13
  | .set => 14
  | .list => 15
  | .uuid => 16

/-- Modelled from the spec: `TType::try_from(u8)` — the partial inverse of
`TType.toU8`; every byte with no corresponding variant is rejected
(spec §3: "decode must reject any byte value with no corresponding
variant"). -/
def TType.fromU8 : Nat → Option TType
  | 0 => some .stop
  | 1 => some .void
  | 2 => some .bool
  | 3 => some .byte
  | 4 => some .double
  | 6 => some .i16
  | 8 => some .i32
  | 10 => some .i64
  | 11 => some .string
  | 12 => some .struct
  | 13 => some .map
  | 14 => some .set
  | 15 => some .list
  | 16 => some .uuid
  | _ => none

/-- Modelled from the spec: the message-type enumeration
{Call, Reply, Exception, Oneway} of §3. -/
inductive TMessageType where
  | call
  | reply
  | exception
  | oneway
deriving DecidableEq, Repr

/-- Modelled from the spec: `TMessageType as u8` — the four known type
nibbles are {1, 2, 3, 4} (§4.6, §8 scenario: Call = 1). -/
def TMessageType.toU8 : TMessageType → Nat
  | .call => 1
  | .reply => 2
  | .exception => 3
  | .oneway => 4

/-- Modelled from the spec: `TMessageType::try_from(u8)`, rejecting every
byte outside {1, 2, 3, 4}. -/
def TMessageType.fromU8 : Nat → Option TMessageType
  | 1 => some .call
  | 2 => some .reply
  | 3 => some .exception
  | 4 => some .oneway
  | _ => none

/-- Modelled from the spec: the decode-error taxonomy of §7 — BadVersion,
InvalidData, and I/O failure (the streaming reader's end-of-input). The
source's `ProtocolError(InvalidData)` produced by `field_type_from_u8` is
converted by `?` into a decode error of the same kind. -/
inductive DecodeErrorKind where
  | badVersion
  | invalidData
  | unexpectedEof
deriving DecidableEq, Repr

/-- Modelled from the spec: a decode error tags its kind and carries a
human-readable detail string (§7). -/
structure DecodeError where
  kind : DecodeErrorKind
  msg : String
deriving DecidableEq, Repr

/-- Modelled from the spec: `TMessageIdentifier` of §3 — name, message
type, 32-bit signed sequence number. The name is modelled by its byte
content (a `FastStr` in the source). -/
structure TMessageIdentifier where
  name : List Nat
  messageType : TMessageType
  sequenceNumber : Int
deriving DecidableEq, Repr

/-- Modelled from the spec: `TFieldIdentifier` of §3 — the wire format
never carries the name, so only the field type and 16-bit signed id are
modelled. -/
structure TFieldIdentifier where
  fieldType : TType
  id : Int
deriving DecidableEq, Repr

/-- Modelled from the spec: `TListIdentifier` of §3. -/
structure TListIdentifier where
  elementType : TType
  size : Nat
deriving DecidableEq, Repr

/-- Modelled from the spec: `TSetIdentifier` of §3. -/
structure TSetIdentifier where
  elementType : TType
  size : Nat
deriving DecidableEq, Repr

/-- Modelled from the spec: `TMapIdentifier` of §3. -/
structure TMapIdentifier where
  keyType : TType
  valueType : TType
  size : Nat
deriving DecidableEq, Repr

/-- `field_type_from_u8` (binary_unsafe.rs:50): parse a wire-type byte,
failing with an InvalidData protocol error on unknown bytes; the `?`
conversion to `DecodeError` preserves the kind. -/
def field_type_from_u8 (ttype : Nat) : Except DecodeError TType :=
  match TType.fromU8 ttype with
  | some t => .ok t
  | none => .error ⟨.invalidData, "invalid ttype " ++ toString ttype⟩

/-- Rust's `usize as i32` cast: truncate to 32 bits, then signed view. -/
def usizeAsI32 (n : Nat) : Int :=
  sview 32 (n % 2 ^ 32)

/-! ## Length pass (`TLengthProtocol for TBinaryProtocol<T>`, lines 61-201)

The length pass touches only the `zero_copy` flag and the `zero_copy_len`
accumulator of `TBinaryProtocol`; `LenState` is that projection. The crate
constant `ZERO_COPY_THRESHOLD` lives outside `binary_unsafe.rs`, so it is
passed as an explicit parameter `tc`. -/

structure LenState where
  zero_copy : Bool
  zero_copy_len : Nat
deriving DecidableEq, Repr

/-- `write_message_begin_len` is defined below from the field lengths. -/
def write_byte_len (_b : Nat) : Nat := 1

def write_i8_len (_i : Int) : Nat := 1

def write_i16_len (_i : Int) : Nat := 2

def write_i32_len (_i : Int) : Nat := 4

def write_i64_len (_i : Int) : Nat := 8

def write_double_len (_bits : Nat) : Nat := 8

def write_uuid_len (_u : List Nat) : Nat := 16

def write_bool_len (_b : Bool) : Nat := write_i8_len 0

def write_field_begin_len : Nat := write_byte_len 0 + write_i16_len 0

def write_field_stop_len : Nat := write_byte_len 0

def write_list_begin_len : Nat := write_byte_len 0 + write_i32_len 0

def write_set_begin_len : Nat := write_byte_len 0 + write_i32_len 0

def write_map_begin_len : Nat := write_byte_len 0 + write_byte_len 0 + write_i32_len 0

/-- `write_bytes_len` (lines 102-108): bumps the zero-copy accumulator for
eligible payloads, returns `4 + len`. -/
def write_bytes_len (tc : Nat) (b : List Nat) (st : LenState) : Nat × LenState :=
  let st :=
    if st.zero_copy && decide (b.length ≥ tc) then
      { st with zero_copy_len := st.zero_copy_len + b.length }
    else st
  (write_i32_len 0 + b.length, st)

/-- `write_faststr_len` (lines 149-155): same accumulator rule as
`write_bytes_len`. -/
def write_faststr_len (tc : Nat) (s : List Nat) (st : LenState) : Nat × LenState :=
  let st :=
    if st.zero_copy && decide (s.length ≥ tc) then
      { st with zero_copy_len := st.zero_copy_len + s.length }
    else st
  (write_i32_len 0 + s.length, st)

/-- `write_string_len` (lines 145-147): `4 + len`; unlike
`write_bytes_len` / `write_faststr_len` it never touches the zero-copy
accumulator. -/
def write_string_len (s : List Nat) (st : LenState) : Nat × LenState :=
  (write_i32_len 0 + s.length, st)

/-- `write_bytes_vec_len` (lines 187-190): `4 + len`, no accumulator
update. -/
def write_bytes_vec_len (b : List Nat) (st : LenState) : Nat × LenState :=
  (write_i32_len 0 + b.length, st)

/-- `write_message_begin_len` (lines 62-65). -/
def write_message_begin_len (tc : Nat) (idn : TMessageIdentifier) (st : LenState) :
    Nat × LenState :=
  let (n, st) := write_faststr_len tc idn.name st
  (write_i32_len 0 + n + write_i32_len 0, st)

/-- `zero_copy_len` accessor (lines 192-195). -/
def zero_copy_len (st : LenState) : Nat :=
  st.zero_copy_len

/-- `reset` (lines 197-200). -/
def reset (st : LenState) : LenState :=
  { st with zero_copy_len := 0 }

/-! ## Contiguous-buffer writer
(`TOutputProtocol for TBinaryProtocol<&mut BytesMut>`, lines 203-454)

`WriterState.buf` is the preallocated writable region the source addresses
through `self.buf` / `self.trans`, `index` the write cursor. Every store of
the source has the shape "write `n` bytes at `buf[index..index+n]`, then
`index += n`", captured by `emit`. -/

structure WriterState where
  buf : List Nat
  index : Nat
deriving DecidableEq, Repr

/-- In-place store of `bs` at offset `i` of `l`
(`buf[i..i+bs.len()] = bs`); total, faithful when `i + bs.length ≤
l.length` (the source's unchecked-write precondition). -/
def setSlice (l : List Nat) (i : Nat) (bs : List Nat) : List Nat :=
  l.take i ++ bs ++ l.drop (i + bs.length)

/-- One unchecked position-tracked store: write `bs` at the cursor and
advance the cursor by `bs.length`. -/
def emit (bs : List Nat) (st : WriterState) : WriterState :=
  ⟨setSlice st.buf st.index bs, st.index + bs.length⟩

def write_byte (b : Nat) (st : WriterState) : WriterState :=
  emit [b] st

def write_i8 (i : Int) (st : WriterState) : WriterState :=
  emit [uview 8 i] st

def write_i16 (i : Int) (st : WriterState) : WriterState :=
  emit (be16 (uview 16 i)) st

def write_i32 (i : Int) (st : WriterState) : WriterState :=
  emit (be32 (uview 32 i)) st

def write_i64 (i : Int) (st : WriterState) : WriterState :=
  emit (be64 (uview 64 i)) st

/-- `write_double` stores `d.to_bits().to_be_bytes()`; the double is
modelled by its 64-bit bit pattern. -/
def write_double (bits : Nat) (st : WriterState) : WriterState :=
  emit (be64 bits) st

/-- `write_uuid` (lines 289-300): the 16 raw bytes of the `[u8; 16]`
argument, cursor advances by 16 (faithful when `u.length = 16`). -/
def write_uuid (u : List Nat) (st : WriterState) : WriterState :=
  ⟨setSlice st.buf st.index u, st.index + 16⟩

def write_bool (b : Bool) (st : WriterState) : WriterState :=
  if b then write_i8 1 st else write_i8 0 st

/-- `write_field_begin` (lines 232-244): type byte, then big-endian 16-bit
id, cursor advances by 3. -/
def write_field_begin (ft : TType) (id : Int) (st : WriterState) : WriterState :=
  emit (ft.toU8 :: be16 (uview 16 id)) st

/-- `write_field_stop` (lines 251-254): the single `TType::Stop as u8`
byte. -/
def write_field_stop (st : WriterState) : WriterState :=
  write_byte TType.stop.toU8 st

/-- `write_bytes` (lines 266-277): 4-byte length prefix (`b.len() as
i32`), then the payload copied (`ptr::copy_nonoverlapping`). -/
def write_bytes (b : List Nat) (st : WriterState) : WriterState :=
  emit b (write_i32 (usizeAsI32 b.length) st)

def write_string (s : List Nat) (st : WriterState) : WriterState :=
  emit s (write_i32 (usizeAsI32 s.length) st)

def write_faststr (s : List Nat) (st : WriterState) : WriterState :=
  emit s (write_i32 (usizeAsI32 s.length) st)

def write_bytes_vec (b : List Nat) (st : WriterState) : WriterState :=
  emit b (write_i32 (usizeAsI32 b.length) st)

/-- `write_message_begin` (lines 207-214): `(VERSION_1 |
msg_type_u8) as i32`, then the name, then the sequence number. -/
def write_message_begin (idn : TMessageIdentifier) (st : WriterState) : WriterState :=
  let st := write_i32 (sview 32 (0x80010000 ||| idn.messageType.toU8)) st
  let st := write_faststr idn.name st
  write_i32 idn.sequenceNumber st

def write_list_begin (idn : TListIdentifier) (st : WriterState) : WriterState :=
  write_i32 (usizeAsI32 idn.size) (write_byte idn.elementType.toU8 st)

def write_set_begin (idn : TSetIdentifier) (st : WriterState) : WriterState :=
  write_i32 (usizeAsI32 idn.size) (write_byte idn.elementType.toU8 st)

def write_map_begin (idn : TMapIdentifier) (st : WriterState) : WriterState :=
  write_i32 (usizeAsI32 idn.size)
    (write_byte idn.valueType.toU8 (write_byte idn.keyType.toU8 st))

/-! ## Write-call sequences

A `WriteOp` names one call of the write API; `runLen` runs the length pass
over a call sequence (threading the accumulator, summing the returned
lengths) and `runWrite` runs the matching contiguous-buffer write pass. -/

inductive WriteOp where
  | messageBegin (idn : TMessageIdentifier)
  | messageEnd
  | structBegin
  | structEnd
  | fieldBegin (ft : TType) (id : Int)
  | fieldEnd
  | fieldStop
  | bool (b : Bool)
  | bytes (b : List Nat)
  | byte (b : Nat)
  | uuid (u : List Nat)
  | i8 (i : Int)
  | i16 (i : Int)
  | i32 (i : Int)
  | i64 (i : Int)
  | double (bits : Nat)
  | string (s : List Nat)
  | faststr (s : List Nat)
  | listBegin (idn : TListIdentifier)
  | listEnd
  | setBegin (idn : TSetIdentifier)
  | setEnd
  | mapBegin (idn : TMapIdentifier)
  | mapEnd
  | bytesVec (b : List Nat)

/-- The length pass's answer for one write call (`write_X_len`). -/
def opLen (tc : Nat) (op : WriteOp) (st : LenState) : Nat × LenState :=
  match op with
  | .messageBegin idn => write_message_begin_len tc idn st
  | .messageEnd => (0, st)
  | .structBegin => (0, st)
  | .structEnd => (0, st)
  | .fieldBegin _ _ => (write_field_begin_len, st)
  | .fieldEnd => (0, st)
  | .fieldStop => (write_field_stop_len, st)
  | .bool b => (write_bool_len b, st)
  | .bytes b => write_bytes_len tc b st
  | .byte b => (write_byte_len b, st)
  | .uuid u => (write_uuid_len u, st)
  | .i8 i => (write_i8_len i, st)
  | .i16 i => (write_i16_len i, st)
  | .i32 i => (write_i32_len i, st)
  | .i64 i => (write_i64_len i, st)
  | .double bits => (write_double_len bits, st)
  | .string s => write_string_len s st
  | .faststr s => write_faststr_len tc s st
  | .listBegin _ => (write_list_begin_len, st)
  | .listEnd => (0, st)
  | .setBegin _ => (write_set_begin_len, st)
  | .setEnd => (0, st)
  | .mapBegin _ => (write_map_begin_len, st)
  | .mapEnd => (0, st)
  | .bytesVec b => write_bytes_vec_len b st

/-- The contiguous-buffer writer's action for one write call (`write_X` on
`TBinaryProtocol<&mut BytesMut>`); the bracketing end calls are no-ops. -/
def opWrite (op : WriteOp) (st : WriterState) : WriterState :=
  match op with
  | .messageBegin idn => write_message_begin idn st
  | .messageEnd => st
  | .structBegin => st
  | .structEnd => st
  | .fieldBegin ft id => write_field_begin ft id st
  | .fieldEnd => st
  | .fieldStop => write_field_stop st
  | .bool b => write_bool b st
  | .bytes b => write_bytes b st
  | .byte b => write_byte b st
  | .uuid u => write_uuid u st
  | .i8 i => write_i8 i st
  | .i16 i => write_i16 i st
  | .i32 i => write_i32 i st
  | .i64 i => write_i64 i st
  | .double bits => write_double bits st
  | .string s => write_string s st
  | .faststr s => write_faststr s st
  | .listBegin idn => write_list_begin idn st
  | .listEnd => st
  | .setBegin idn => write_set_begin idn st
  | .setEnd => st
  | .mapBegin idn => write_map_begin idn st
  | .mapEnd => st
  | .bytesVec b => write_bytes_vec b st

/-- Run the length pass over a call sequence: thread the accumulator and
sum the returned lengths. -/
def runLen (tc : Nat) (ops : List WriteOp) (st : LenState) : Nat × LenState :=
  match ops with
  | [] => (0, st)
  | op :: rest =>
    let (n, st) := opLen tc op st
    let (m, st) := runLen tc rest st
    (n + m, st)

/-- Run the write pass over a call sequence. -/
def runWrite (ops : List WriteOp) (st : WriterState) : WriterState :=
  match ops with
  | [] => st
  | op :: rest => runWrite rest (opWrite op st)

/-! ## Zero-copy buffer reader
(`TInputProtocol for TBinaryProtocol<&mut BytesMut>`, lines 955-1205)

`ReaderState.trans` is the owned `BytesMut` content (from its current
start), `index` the read cursor. The source's `buf` is a window over the
whole of `trans`, re-acquired (`slice::from_raw_parts_mut`) after every
structural change of `trans`, so reads address `trans` directly here.
`trans.advance(n)` drops `n` front bytes; `split_to(n).freeze()` detaches
the first `n` bytes as an independently owned slice. -/

structure ReaderState where
  trans : List Nat
  index : Nat
deriving DecidableEq, Repr

/-- `buf[index..index+n]` — the source's unchecked window load; faithful
when `index + n ≤ trans.length`. -/
def rdSlice (st : ReaderState) (n : Nat) : List Nat :=
  (st.trans.drop st.index).take n

/-- Unchecked value-level loads. Each returns the loaded value and the
advanced state; the `TInputProtocol` methods wrap them in `Ok`. -/
def read_byte_v (st : ReaderState) : Nat × ReaderState :=
  (st.trans.getD st.index 0, { st with index := st.index + 1 })

def read_i8_v (st : ReaderState) : Int × ReaderState :=
  (sview 8 (st.trans.getD st.index 0), { st with index := st.index + 1 })

def read_i16_v (st : ReaderState) : Int × ReaderState :=
  (sview 16 (decBe (rdSlice st 2)), { st with index := st.index + 2 })

def read_i32_v (st : ReaderState) : Int × ReaderState :=
  (sview 32 (decBe (rdSlice st 4)), { st with index := st.index + 4 })

def read_i64_v (st : ReaderState) : Int × ReaderState :=
  (sview 64 (decBe (rdSlice st 8)), { st with index := st.index + 8 })

/-- `read_double` loads 8 big-endian bytes and reinterprets via
`f64::from_bits`; the double is modelled by its 64-bit bit pattern. -/
def read_double_v (st : ReaderState) : Nat × ReaderState :=
  (decBe (rdSlice st 8), { st with index := st.index + 8 })

def read_uuid_v (st : ReaderState) : List Nat × ReaderState :=
  (rdSlice st 16, { st with index := st.index + 16 })

def read_byte (st : ReaderState) : Except DecodeError (Nat × ReaderState) :=
  .ok (read_byte_v st)

def read_i8 (st : ReaderState) : Except DecodeError (Int × ReaderState) :=
  .ok (read_i8_v st)

def read_i16 (st : ReaderState) : Except DecodeError (Int × ReaderState) :=
  .ok (read_i16_v st)

def read_i32 (st : ReaderState) : Except DecodeError (Int × ReaderState) :=
  .ok (read_i32_v st)

def read_i64 (st : ReaderState) : Except DecodeError (Int × ReaderState) :=
  .ok (read_i64_v st)

def read_double (st : ReaderState) : Except DecodeError (Nat × ReaderState) :=
  .ok (read_double_v st)

def read_uuid (st : ReaderState) : Except DecodeError (List Nat × ReaderState) :=
  .ok (read_uuid_v st)

/-- `read_bool` (lines 1029-1035): a read i8 of 0 is false, anything else
true. -/
def read_bool (st : ReaderState) : Except DecodeError (Bool × ReaderState) :=
  let (b, st) := read_i8_v st
  .ok (if b = 0 then false else true, st)

/-- `read_bytes` (lines 1038-1046): read the 4-byte length, commit the
cursor (`trans.advance(index); index = 0`), then unconditionally detach
(`split_to(len).freeze()`) the payload and re-acquire the window. -/
def read_bytes (st : ReaderState) : Except DecodeError (List Nat × ReaderState) :=
  let (len, st) := read_i32_v st
  let trans := st.trans.drop st.index
  let n := i32AsUsize len
  let val := trans.take n
  .ok (val, ⟨trans.drop n, 0⟩)

/-- `read_bytes_vec` (lines 1192-1199): same split-based path as
`read_bytes`, collected into a `Vec`. -/
def read_bytes_vec (st : ReaderState) : Except DecodeError (List Nat × ReaderState) :=
  let (len, st) := read_i32_v st
  let trans := st.trans.drop st.index
  let n := i32AsUsize len
  let val := trans.take n
  .ok (val, ⟨trans.drop n, 0⟩)

/-- `read_string` (lines 1110-1121): read the 4-byte length, copy the
payload out of the window (no UTF-8 validation), advance the cursor. -/
def read_string (st : ReaderState) : Except DecodeError (List Nat × ReaderState) :=
  let (len, st) := read_i32_v st
  let n := i32AsUsize len
  let val := (st.trans.drop st.index).take n
  .ok (val, { st with index := st.index + n })

/-- `read_faststr` (lines 1124-1143): read the 4-byte length; at or above
`ZERO_COPY_THRESHOLD` (`tc`) commit the cursor, detach the payload by
reference and re-acquire the window; below it copy out of the window and
advance the cursor. -/
def read_faststr (tc : Nat) (st : ReaderState) :
    Except DecodeError (List Nat × ReaderState) :=
  let (len, st) := read_i32_v st
  let n := i32AsUsize len
  if n ≥ tc then
    let trans := st.trans.drop st.index
    let val := trans.take n
    .ok (val, ⟨trans.drop n, 0⟩)
  else
    let val := (st.trans.drop st.index).take n
    .ok (val, { st with index := st.index + n })

/-- `read_field_begin` (lines 1006-1021): type byte (InvalidData on an
unknown byte), then the 16-bit id — except for Stop, whose id is 0 and
which consumes no id bytes. -/
def read_field_begin (st : ReaderState) :
    Except DecodeError (TFieldIdentifier × ReaderState) :=
  let (b, st) := read_byte_v st
  match TType.fromU8 b with
  | none => .error ⟨.invalidData, "invalid ttype " ++ toString b⟩
  | some ft =>
    match ft with
    | .stop => .ok (⟨.stop, 0⟩, st)
    | _ =>
      let (id, st) := read_i16_v st
      .ok (⟨ft, id⟩, st)

/-- `read_list_begin` (lines 1146-1150). -/
def read_list_begin (st : ReaderState) :
    Except DecodeError (TListIdentifier × ReaderState) :=
  let (b, st) := read_byte_v st
  match field_type_from_u8 b with
  | .error e => .error e
  | .ok et =>
    let (size, st) := read_i32_v st
    .ok (⟨et, i32AsUsize size⟩, st)

/-- `read_set_begin` (lines 1158-1162). -/
def read_set_begin (st : ReaderState) :
    Except DecodeError (TSetIdentifier × ReaderState) :=
  let (b, st) := read_byte_v st
  match field_type_from_u8 b with
  | .error e => .error e
  | .ok et =>
    let (size, st) := read_i32_v st
    .ok (⟨et, i32AsUsize size⟩, st)

/-- `read_map_begin` (lines 1170-1175). -/
def read_map_begin (st : ReaderState) :
    Except DecodeError (TMapIdentifier × ReaderState) :=
  let (kb, st) := read_byte_v st
  match field_type_from_u8 kb with
  | .error e => .error e
  | .ok kt =>
    let (vb, st) := read_byte_v st
    match field_type_from_u8 vb with
    | .error e => .error e
    | .ok vt =>
      let (size, st) := read_i32_v st
      .ok (⟨kt, vt, i32AsUsize size⟩, st)

/-- `read_message_begin` (lines 958-988): read the 32-bit `size`; reject
`size > 0` (BadVersion); parse the type nibble `size & 0xf` (InvalidData
on an unknown nibble); check `size & 0xffff0000 == 0x80010000`
(BadVersion); then read the name and sequence number. The bit operations
of the source's i32 values are expressed on the 32-bit word
`uview 32 size`. -/
def read_message_begin (tc : Nat) (st : ReaderState) :
    Except DecodeError (TMessageIdentifier × ReaderState) :=
  let (size, st) := read_i32_v st
  if size > 0 then
    .error ⟨.badVersion, "Missing version in ReadMessageBegin"⟩
  else
    let typeU8 := uview 32 size &&& 0xf
    match TMessageType.fromU8 typeU8 with
    | none => .error ⟨.invalidData, "invalid message type " ++ toString typeU8⟩
    | some mt =>
      if uview 32 size &&& 0xffff0000 ≠ 0x80010000 then
        .error ⟨.badVersion, "Bad version in ReadMessageBegin"⟩
      else
        match read_faststr tc st with
        | .error e => .error e
        | .ok (name, st) =>
          let (seq, st) := read_i32_v st
          .ok (⟨name, mt, seq⟩, st)

/-! ## Streaming reader
(`TAsyncInputProtocol for TAsyncBinaryProtocol<R>`, lines 746-944)

The asynchronous byte source is modelled by the list of bytes it will
deliver; every primitive read consumes a prefix or fails with the
propagated I/O error (end of input). Suspension itself has no functional
content, so each `async fn` is a function of the remaining stream. -/

/-- `reader.read_exact(n)` / tokio's fixed-width reads: consume exactly
`n` bytes or fail with the propagated I/O error. -/
def aReadExact (n : Nat) (s : List Nat) : Except DecodeError (List Nat × List Nat) :=
  if n ≤ s.length then .ok (s.take n, s.drop n)
  else .error ⟨.unexpectedEof, "early eof"⟩

def a_read_byte (s : List Nat) : Except DecodeError (Nat × List Nat) :=
  match aReadExact 1 s with
  | .error e => .error e
  | .ok (bs, s) => .ok (decBe bs, s)

def a_read_i8 (s : List Nat) : Except DecodeError (Int × List Nat) :=
  match aReadExact 1 s with
  | .error e => .error e
  | .ok (bs, s) => .ok (sview 8 (decBe bs), s)

def a_read_i16 (s : List Nat) : Except DecodeError (Int × List Nat) :=
  match aReadExact 2 s with
  | .error e => .error e
  | .ok (bs, s) => .ok (sview 16 (decBe bs), s)

def a_read_i32 (s : List Nat) : Except DecodeError (Int × List Nat) :=
  match aReadExact 4 s with
  | .error e => .error e
  | .ok (bs, s) => .ok (sview 32 (decBe bs), s)

def a_read_i64 (s : List Nat) : Except DecodeError (Int × List Nat) :=
  match aReadExact 8 s with
  | .error e => .error e
  | .ok (bs, s) => .ok (sview 64 (decBe bs), s)

/-- `read_double` via `read_f64`; modelled by the 64-bit bit pattern. -/
def a_read_double (s : List Nat) : Except DecodeError (Nat × List Nat) :=
  match aReadExact 8 s with
  | .error e => .error e
  | .ok (bs, s) => .ok (decBe bs, s)

def a_read_bool (s : List Nat) : Except DecodeError (Bool × List Nat) :=
  match a_read_i8 s with
  | .error e => .error e
  | .ok (b, s) => .ok (if b = 0 then false else true, s)

def a_read_uuid (s : List Nat) : Except DecodeError (List Nat × List Nat) :=
  aReadExact 16 s

/-- `read_bytes_vec` (lines 837-843): 4-byte length, then a fresh copied
allocation of exactly that many bytes. -/
def a_read_bytes_vec (s : List Nat) : Except DecodeError (List Nat × List Nat) :=
  match a_read_i32 s with
  | .error e => .error e
  | .ok (len, s) => aReadExact (i32AsUsize len) s

/-- `read_bytes` (lines 832-834) delegates to `read_bytes_vec`. -/
def a_read_bytes (s : List Nat) : Except DecodeError (List Nat × List Nat) :=
  a_read_bytes_vec s

/-- `read_string` (lines 853-859): like `read_bytes_vec`, reinterpreted as
text without UTF-8 validation. -/
def a_read_string (s : List Nat) : Except DecodeError (List Nat × List Nat) :=
  match a_read_i32 s with
  | .error e => .error e
  | .ok (len, s) => aReadExact (i32AsUsize len) s

/-- `read_faststr` (lines 862-864) delegates to `read_string`. -/
def a_read_faststr (s : List Nat) : Except DecodeError (List Nat × List Nat) :=
  a_read_string s

/-- `read_field_begin` (lines 800-815). -/
def a_read_field_begin (s : List Nat) :
    Except DecodeError (TFieldIdentifier × List Nat) :=
  match a_read_byte s with
  | .error e => .error e
  | .ok (b, s) =>
    match TType.fromU8 b with
    | none => .error ⟨.invalidData, "invalid ttype " ++ toString b⟩
    | some ft =>
      match ft with
      | .stop => .ok (⟨.stop, 0⟩, s)
      | _ =>
        match a_read_i16 s with
        | .error e => .error e
        | .ok (id, s) => .ok (⟨ft, id⟩, s)

/-- `read_list_begin` (lines 897-904). -/
def a_read_list_begin (s : List Nat) :
    Except DecodeError (TListIdentifier × List Nat) :=
  match a_read_byte s with
  | .error e => .error e
  | .ok (b, s) =>
    match field_type_from_u8 b with
    | .error e => .error e
    | .ok et =>
      match a_read_i32 s with
      | .error e => .error e
      | .ok (size, s) => .ok (⟨et, i32AsUsize size⟩, s)

/-- `read_set_begin` (lines 912-919). -/
def a_read_set_begin (s : List Nat) :
    Except DecodeError (TSetIdentifier × List Nat) :=
  match a_read_byte s with
  | .error e => .error e
  | .ok (b, s) =>
    match field_type_from_u8 b with
    | .error e => .error e
    | .ok et =>
      match a_read_i32 s with
      | .error e => .error e
      | .ok (size, s) => .ok (⟨et, i32AsUsize size⟩, s)

/-- `read_map_begin` (lines 927-938). -/
def a_read_map_begin (s : List Nat) :
    Except DecodeError (TMapIdentifier × List Nat) :=
  match a_read_byte s with
  | .error e => .error e
  | .ok (kb, s) =>
    match field_type_from_u8 kb with
    | .error e => .error e
    | .ok kt =>
      match a_read_byte s with
      | .error e => .error e
      | .ok (vb, s) =>
        match field_type_from_u8 vb with
        | .error e => .error e
        | .ok vt =>
          match a_read_i32 s with
          | .error e => .error e
          | .ok (size, s) => .ok (⟨kt, vt, i32AsUsize size⟩, s)

/-- `read_message_begin` (lines 752-782): identical header validation to
the synchronous reader, reading from the stream. -/
def a_read_message_begin (s : List Nat) :
    Except DecodeError (TMessageIdentifier × List Nat) :=
  match a_read_i32 s with
  | .error e => .error e
  | .ok (size, s) =>
    if size > 0 then
      .error ⟨.badVersion, "Missing version in ReadMessageBegin"⟩
    else
      let typeU8 := uview 32 size &&& 0xf
      match TMessageType.fromU8 typeU8 with
      | none => .error ⟨.invalidData, "invalid message type " ++ toString typeU8⟩
      | some mt =>
        if uview 32 size &&& 0xffff0000 ≠ 0x80010000 then
          .error ⟨.badVersion, "Bad version in ReadMessageBegin"⟩
        else
          match a_read_faststr s with
          | .error e => .error e
          | .ok (name, s) =>
            match a_read_i32 s with
            | .error e => .error e
            | .ok (seq, s) => .ok (⟨name, mt, seq⟩, s)

/-! ## Chained-buffer writer
(`TOutputProtocol for TBinaryProtocol<&mut LinkedBytes>`, lines 456-740)

The `LinkedBytes` chain itself is an external collaborator (spec §6): it
is modelled from the spec's interface — committed segments in order, the
current tail's writable region, and O(1) append-by-reference of an
externally owned range. The write sequencing below is from the source. -/

/-- Modelled from the spec: one segment of the chained buffer — bytes
committed out of a tail region, or an externally owned byte range appended
by reference (ownership transfer, no byte copy; glossary "chained
buffer"). -/
inductive Seg where
  | copied (bytes : List Nat)
  | spliced (bytes : List Nat)
deriving DecidableEq, Repr

/-- Modelled from the spec: the chained buffer as the writer sees it — the
committed chain, the current tail's writable region (`bytes_mut()`), and
the writer's cursor into the tail window (`TBinaryProtocol.index`). -/
structure LBState where
  chain : List Seg
  tail : List Nat
  index : Nat
deriving DecidableEq, Repr

/-- A position-tracked store into the tail window. -/
def lbEmit (bs : List Nat) (st : LBState) : LBState :=
  { st with tail := setSlice st.tail st.index bs, index := st.index + bs.length }

def lb_write_i32 (i : Int) (st : LBState) : LBState :=
  lbEmit (be32 (uview 32 i)) st

/-- Modelled from the spec: the splice step of §4.3 —
`advance_mut(self.index)` commits the tail's already-written prefix,
`insert(payload)` appends the payload by reference as a new chain segment,
and a fresh window is re-acquired over the remaining tail capacity with
the cursor reset to its start. -/
def lb_insert (payload : List Nat) (st : LBState) : LBState :=
  { chain := st.chain ++ [.copied (st.tail.take st.index), .spliced payload],
    tail := st.tail.drop st.index,
    index := 0 }

/-- `write_bytes` on the chained writer (lines 519-544): length prefix,
then either the zero-copy splice (payload at or above the threshold) or a
plain copy into the tail. -/
def lb_write_bytes (tc : Nat) (zc : Bool) (b : List Nat) (st : LBState) : LBState :=
  let st := lb_write_i32 (usizeAsI32 b.length) st
  if zc && decide (b.length ≥ tc) then lb_insert b st
  else lbEmit b st

/-- `write_faststr` on the chained writer (lines 654-679): identical shape
to `lb_write_bytes`. -/
def lb_write_faststr (tc : Nat) (zc : Bool) (s : List Nat) (st : LBState) : LBState :=
  let st := lb_write_i32 (usizeAsI32 s.length) st
  if zc && decide (s.length ≥ tc) then lb_insert s st
  else lbEmit s st

/-! ## Supported values, their encode and decode dispatch (for the
round-trip property) -/

/-- One supported wire value: a fixed-width scalar, bool, string, bytes,
uuid, collection header, field header or message envelope. Doubles are
carried as their 64-bit bit pattern, strings by their byte content. -/
inductive TValue where
  | bool (b : Bool)
  | i8 (i : Int)
  | i16 (i : Int)
  | i32 (i : Int)
  | i64 (i : Int)
  | double (bits : Nat)
  | string (s : List Nat)
  | bytes (b : List Nat)
  | uuid (u : List Nat)
  | listHeader (idn : TListIdentifier)
  | setHeader (idn : TSetIdentifier)
  | mapHeader (idn : TMapIdentifier)
  | fieldHeader (ft : TType) (id : Int)
  | message (idn : TMessageIdentifier)
deriving DecidableEq, Repr

/-- The matching contiguous-buffer write call for a value. -/
def encodeValue (v : TValue) (st : WriterState) : WriterState :=
  match v with
  | .bool b => write_bool b st
  | .i8 i => write_i8 i st
  | .i16 i => write_i16 i st
  | .i32 i => write_i32 i st
  | .i64 i => write_i64 i st
  | .double bits => write_double bits st
  | .string s => write_string s st
  | .bytes b => write_bytes b st
  | .uuid u => write_uuid u st
  | .listHeader idn => write_list_begin idn st
  | .setHeader idn => write_set_begin idn st
  | .mapHeader idn => write_map_begin idn st
  | .fieldHeader ft id => write_field_begin ft id st
  | .message idn => write_message_begin idn st

/-- The shape tag driving the matching read call. -/
inductive TKind where
  | bool
  | i8
  | i16
  | i32
  | i64
  | double
  | string
  | bytes
  | uuid
  | listHeader
  | setHeader
  | mapHeader
  | fieldHeader
  | message
deriving DecidableEq, Repr

def kindOf : TValue → TKind
  | .bool _ => .bool
  | .i8 _ => .i8
  | .i16 _ => .i16
  | .i32 _ => .i32
  | .i64 _ => .i64
  | .double _ => .double
  | .string _ => .string
  | .bytes _ => .bytes
  | .uuid _ => .uuid
  | .listHeader _ => .listHeader
  | .setHeader _ => .setHeader
  | .mapHeader _ => .mapHeader
  | .fieldHeader _ _ => .fieldHeader
  | .message _ => .message

/-- The matching zero-copy buffer read call for a shape, its result
injected back into `TValue`. -/
def decodeValue (tc : Nat) (k : TKind) (st : ReaderState) :
    Except DecodeError (TValue × ReaderState) :=
  match k with
  | .bool => (read_bool st).map fun p => (.bool p.1, p.2)
  | .i8 => (read_i8 st).map fun p => (.i8 p.1, p.2)
  | .i16 => (read_i16 st).map fun p => (.i16 p.1, p.2)
  | .i32 => (read_i32 st).map fun p => (.i32 p.1, p.2)
  | .i64 => (read_i64 st).map fun p => (.i64 p.1, p.2)
  | .double => (read_double st).map fun p => (.double p.1, p.2)
  | .string => (read_string st).map fun p => (.string p.1, p.2)
  | .bytes => (read_bytes st).map fun p => (.bytes p.1, p.2)
  | .uuid => (read_uuid st).map fun p => (.uuid p.1, p.2)
  | .listHeader => (read_list_begin st).map fun p => (.listHeader p.1, p.2)
  | .setHeader => (read_set_begin st).map fun p => (.setHeader p.1, p.2)
  | .mapHeader => (read_map_begin st).map fun p => (.mapHeader p.1, p.2)
  | .fieldHeader => (read_field_begin st).map fun p => (.fieldHeader p.1.fieldType p.1.id, p.2)
  | .message => (read_message_begin tc st).map fun p => (.message p.1, p.2)

/-- Well-formedness of a value as constrained by the source's Rust types:
fixed-width integers in range, usize lengths and sizes representable in an
i32, a 16-byte uuid, a non-Stop field type (the Stop pseudo-field carries
no id and is written by `write_field_stop`). -/
def wfValue : TValue → Prop
  | .bool _ => True
  | .i8 i => -(2 ^ 7) ≤ i ∧ i < 2 ^ 7
  | .i16 i => -(2 ^ 15) ≤ i ∧ i < 2 ^ 15
  | .i32 i => -(2 ^ 31) ≤ i ∧ i < 2 ^ 31
  | .i64 i => -(2 ^ 63) ≤ i ∧ i < 2 ^ 63
  | .double bits => bits < 2 ^ 64
  | .string s => s.length < 2 ^ 31
  | .bytes b => b.length < 2 ^ 31
  | .uuid u => u.length = 16
  | .listHeader idn => idn.size < 2 ^ 31
  | .setHeader idn => idn.size < 2 ^ 31
  | .mapHeader idn => idn.size < 2 ^ 31
  | .fieldHeader ft id => ft ≠ .stop ∧ -(2 ^ 15) ≤ id ∧ id < 2 ^ 15
  | .message idn => idn.name.length < 2 ^ 31 ∧
      -(2 ^ 31) ≤ idn.sequenceNumber ∧ idn.sequenceNumber < 2 ^ 31

/-- The wire byte length of a value (spec §6 table). -/
def encLen : TValue → Nat
  | .bool _ => 1
  | .i8 _ => 1
  | .i16 _ => 2
  | .i32 _ => 4
  | .i64 _ => 8
  | .double _ => 8
  | .string s => 4 + s.length
  | .bytes b => 4 + b.length
  | .uuid _ => 16
  | .listHeader _ => 5
  | .setHeader _ => 5
  | .mapHeader _ => 6
  | .fieldHeader _ _ => 3
  | .message idn => 4 + (4 + idn.name.length) + 4

/-! ## Result observers -/

/-- Whether a decode result is `Ok`. -/
def isOkE {α : Type} (e : Except DecodeError α) : Bool :=
  match e with
  | .ok _ => true
  | .error _ => false

/-- The kind of a failed decode result. -/
def errKind {α : Type} (e : Except DecodeError α) : Option DecodeErrorKind :=
  match e with
  | .ok _ => none
  | .error err => some err.kind

/-- Bytes consumed between two reader states: the front bytes the window
lost plus the cursor movement. -/
def consumedFrom (s0 s1 : ReaderState) : Nat :=
  (s0.trans.length - s1.trans.length) + s1.index - s0.index

/-- The common round-trip contract: encoding from cursor 0 into an
adequately sized buffer advances the cursor by the value's wire length,
and the matching read on exactly those bytes (plus any tail) returns the
value, consuming the same number of bytes. -/
def RoundTrip (tc : Nat) (v : TValue) (buf rest : List Nat) : Prop :=
  (encodeValue v ⟨buf, 0⟩).index = encLen v ∧
  ∃ s1 : ReaderState,
    decodeValue tc (kindOf v) ⟨(encodeValue v ⟨buf, 0⟩).buf.take (encLen v) ++ rest, 0⟩ =
      .ok (v, s1) ∧
    consumedFrom ⟨(encodeValue v ⟨buf, 0⟩).buf.take (encLen v) ++ rest, 0⟩ s1 = encLen v

theorem decBe_be16 (w : Nat) (h : w < 2 ^ 16) : decBe (be16 w) = w := by
  simp only [be16, decBe, List.foldl]
  omega

theorem decBe_be32 (w : Nat) (h : w < 2 ^ 32) : decBe (be32 w) = w := by
  simp only [be32, decBe, List.foldl]
  omega

theorem decBe_be64 (w : Nat) (h : w < 2 ^ 64) : decBe (be64 w) = w := by
  simp only [be64, decBe, List.foldl]
  omega

theorem sview_uview16 (i : Int) (h1 : -(2 ^ 15) ≤ i) (h2 : i < 2 ^ 15) :
    sview 16 (uview 16 i) = i := by
  simp only [sview, uview]
  norm_num
  split <;> omega

theorem sview_uview32 (i : Int) (h1 : -(2 ^ 31) ≤ i) (h2 : i < 2 ^ 31) :
    sview 32 (uview 32 i) = i := by
  simp only [sview, uview]
  norm_num
  split <;> omega

theorem sview_uview64 (i : Int) (h1 : -(2 ^ 63) ≤ i) (h2 : i < 2 ^ 63) :
    sview 64 (uview 64 i) = i := by
  simp only [sview, uview]
  norm_num
  split <;> omega

theorem uview_lt (w : Nat) (i : Int) : uview w i < 2 ^ w := by
  have h : i % ((2 ^ w : Nat) : Int) < ((2 ^ w : Nat) : Int) :=
    Int.emod_lt_of_pos i (by positivity)
  simp only [uview]
  omega

theorem fromU8_toU8 (t : TType) : TType.fromU8 t.toU8 = some t := by
  cases t <;> rfl

theorem opLen_advance (tc : Nat) (op : WriteOp) (lst : LenState) (wst : WriterState) :
    (opWrite op wst).index = wst.index + (opLen tc op lst).1 := by
  cases op <;>
    simp [opWrite, opLen, write_message_begin, write_message_begin_len,
      write_field_begin, write_field_begin_len, write_field_stop,
      write_field_stop_len, write_bool, write_bool_len, write_bytes,
      write_bytes_len, write_byte, write_byte_len, write_uuid, write_uuid_len,
      write_i8, write_i8_len, write_i16, write_i16_len, write_i32,
      write_i32_len, write_i64, write_i64_len, write_double, write_double_len,
      write_string, write_string_len, write_faststr, write_faststr_len,
      write_list_begin, write_list_begin_len, write_set_begin,
      write_set_begin_len, write_map_begin, write_map_begin_len,
      write_bytes_vec, write_bytes_vec_len, emit, be16, be32, be64] <;>
    try split
  all_goals try simp [write_i8, emit]
  all_goals omega

theorem opLen_zc_le (tc : Nat) (op : WriteOp) (lst : LenState) :
    (opLen tc op lst).2.zero_copy_len ≤ lst.zero_copy_len + (opLen tc op lst).1 := by
  cases op <;>
    simp [opLen, write_message_begin_len, write_bytes_len, write_faststr_len,
      write_string_len, write_bytes_vec_len, write_i32_len] <;>
    try split
  all_goals try simp
  all_goals omega

theorem runLen_zc_le (tc : Nat) (ops : List WriteOp) (lst : LenState) :
    (runLen tc ops lst).2.zero_copy_len ≤ lst.zero_copy_len + (runLen tc ops lst).1 := by
  induction ops generalizing lst with
  | nil => simp [runLen]
  | cons op rest ih =>
    simp only [runLen]
    have h1 := opLen_zc_le tc op lst
    have h2 := ih (opLen tc op lst).2
    omega

theorem runWrite_advance (tc : Nat) (ops : List WriteOp) (lst : LenState)
    (wst : WriterState) :
    (runWrite ops wst).index = wst.index + (runLen tc ops lst).1 := by
  induction ops generalizing lst wst with
  | nil => simp [runLen, runWrite]
  | cons op rest ih =>
    simp only [runLen, runWrite]
    rw [ih (opLen tc op lst).2 (opWrite op wst)]
    rw [opLen_advance tc op lst wst]
    omega

/-- C1. Length agreement: for every threshold, every write-call sequence
and every starting state, the total returned by the length pass equals the
number of bytes the contiguous-buffer write pass advances its cursor
(`index`) by; moreover the zero-copy accumulator never exceeds its
starting value plus that total, so from a reset state
`zero_copy_len ≤ length_calculator`. -/
theorem C1_length_agreement (tc : Nat) (zc : Bool) (ops : List WriteOp)
    (lst : LenState) (wst : WriterState) :
    (runWrite ops wst).index = wst.index + (runLen tc ops lst).1 ∧
    (runLen tc ops lst).2.zero_copy_len ≤ lst.zero_copy_len + (runLen tc ops lst).1 ∧
    zero_copy_len (runLen tc ops ⟨zc, 0⟩).2 ≤ (runLen tc ops ⟨zc, 0⟩).1 := by
  refine ⟨runWrite_advance tc ops lst wst, runLen_zc_le tc ops lst, ?_⟩
  have h := runLen_zc_le tc ops ⟨zc, 0⟩
  simpa [zero_copy_len] using h

theorem i32AsUsize_ofNat (n : Nat) (h : n < 2 ^ 64) : i32AsUsize (n : Int) = n := by
  simp only [i32AsUsize]
  omega

theorem sview32_ofNat (n : Nat) (h : n < 2 ^ 31) : sview 32 n = (n : Int) := by
  simp only [sview]
  rw [if_pos]
  exact_mod_cast by norm_num; omega

/-! ## Layout lemmas: reads at a known position of a known buffer -/

theorem uview_sview32 (w : Nat) (h : w < 2 ^ 32) : uview 32 (sview 32 w) = w := by
  simp only [sview, uview]
  split <;> omega

theorem decBe_singleton (b : Nat) : decBe [b] = b := by
  simp [decBe]

theorem rdSlice_at (pre X rest : List Nat) (n : Nat) (h : X.length = n) :
    rdSlice ⟨pre ++ (X ++ rest), pre.length⟩ n = X := by
  rw [rdSlice]
  simp only
  rw [List.drop_left, List.take_left' h]

theorem read_byte_v_at (pre : List Nat) (b : Nat) (rest : List Nat) :
    read_byte_v ⟨pre ++ (b :: rest), pre.length⟩ =
      (b, ⟨pre ++ (b :: rest), pre.length + 1⟩) := by
  simp only [read_byte_v]
  rw [List.getD_append_right pre (b :: rest) 0 pre.length le_rfl]
  simp

theorem read_i16_v_at (pre : List Nat) (w : Nat) (rest : List Nat) (hw : w < 2 ^ 16) :
    read_i16_v ⟨pre ++ (be16 w ++ rest), pre.length⟩ =
      (sview 16 w, ⟨pre ++ (be16 w ++ rest), pre.length + 2⟩) := by
  simp only [read_i16_v]
  rw [rdSlice_at pre (be16 w) rest 2 rfl, decBe_be16 w hw]

theorem read_i32_v_at (pre : List Nat) (w : Nat) (rest : List Nat) (hw : w < 2 ^ 32) :
    read_i32_v ⟨pre ++ (be32 w ++ rest), pre.length⟩ =
      (sview 32 w, ⟨pre ++ (be32 w ++ rest), pre.length + 4⟩) := by
  simp only [read_i32_v]
  rw [rdSlice_at pre (be32 w) rest 4 rfl, decBe_be32 w hw]

theorem read_i64_v_at (pre : List Nat) (w : Nat) (rest : List Nat) (hw : w < 2 ^ 64) :
    read_i64_v ⟨pre ++ (be64 w ++ rest), pre.length⟩ =
      (sview 64 w, ⟨pre ++ (be64 w ++ rest), pre.length + 8⟩) := by
  simp only [read_i64_v]
  rw [rdSlice_at pre (be64 w) rest 8 rfl, decBe_be64 w hw]

theorem read_double_v_at (pre : List Nat) (w : Nat) (rest : List Nat) (hw : w < 2 ^ 64) :
    read_double_v ⟨pre ++ (be64 w ++ rest), pre.length⟩ =
      (w, ⟨pre ++ (be64 w ++ rest), pre.length + 8⟩) := by
  simp only [read_double_v]
  rw [rdSlice_at pre (be64 w) rest 8 rfl, decBe_be64 w hw]

theorem read_uuid_v_at (pre u rest : List Nat) (hu : u.length = 16) :
    read_uuid_v ⟨pre ++ (u ++ rest), pre.length⟩ =
      (u, ⟨pre ++ (u ++ rest), pre.length + 16⟩) := by
  simp only [read_uuid_v]
  rw [rdSlice_at pre u rest 16 hu]

/-- `read_faststr` at a length-prefixed payload: split at or above the
threshold, copy below it. -/
theorem read_faststr_at (tc : Nat) (pre payload rest : List Nat) (n : Nat)
    (hn : payload.length = n) (hn31 : n < 2 ^ 31) :
    read_faststr tc ⟨pre ++ (be32 n ++ (payload ++ rest)), pre.length⟩ =
      (if n ≥ tc then .ok (payload, ⟨rest, 0⟩)
       else .ok (payload,
         ⟨pre ++ (be32 n ++ (payload ++ rest)), pre.length + 4 + n⟩)) := by
  have hval : sview 32 (decBe (be32 n)) = (n : Int) := by
    rw [decBe_be32 n (by omega)]
    exact sview32_ofNat n hn31
  have husize : i32AsUsize (n : Int) = n := i32AsUsize_ofNat n (by omega)
  have hdrop2 : (pre ++ (be32 n ++ (payload ++ rest))).drop (pre.length + 4) =
      payload ++ rest := by
    have he : pre ++ (be32 n ++ (payload ++ rest)) =
        (pre ++ be32 n) ++ (payload ++ rest) := by
      simp [List.append_assoc]
    rw [he]
    exact List.drop_left' (by simp [be32])
  simp only [read_faststr, read_i32_v, rdSlice_at pre (be32 n) (payload ++ rest) 4 rfl,
    hval, husize]
  split
  · simp only [hdrop2, List.take_left' hn, List.drop_left' hn]
  · simp only [hdrop2, List.take_left' hn]

/-- `aReadExact` consumes exactly a known prefix. -/
theorem aReadExact_at (X Y : List Nat) (n : Nat) (h : X.length = n) :
    aReadExact n (X ++ Y) = .ok (X, Y) := by
  rw [aReadExact, if_pos (by simp [h])]
  rw [List.take_left' h, List.drop_left' h]

theorem a_read_byte_cons (b : Nat) (s : List Nat) :
    a_read_byte (b :: s) = .ok (b, s) := by
  have h := aReadExact_at [b] s 1 rfl
  simp only [List.singleton_append] at h
  simp [a_read_byte, h, decBe_singleton]

theorem a_read_i16_at (w : Nat) (s : List Nat) (hw : w < 2 ^ 16) :
    a_read_i16 (be16 w ++ s) = .ok (sview 16 w, s) := by
  simp [a_read_i16, aReadExact_at (be16 w) s 2 rfl, decBe_be16 w hw]

theorem a_read_i32_at (w : Nat) (s : List Nat) (hw : w < 2 ^ 32) :
    a_read_i32 (be32 w ++ s) = .ok (sview 32 w, s) := by
  simp [a_read_i32, aReadExact_at (be32 w) s 4 rfl, decBe_be32 w hw]

/-- A fully valid message header decodes to its identifier (synchronous
reader); the final state depends on whether the name took the zero-copy
split path. -/
theorem read_message_begin_ok (tc w n sw : Nat) (mt : TMessageType)
    (name rest' : List Nat)
    (hw : w < 2 ^ 32) (hneg : sview 32 w ≤ 0)
    (hmt : TMessageType.fromU8 (w &&& 0xf) = some mt)
    (hver : w &&& 0xffff0000 = 0x80010000)
    (hn : name.length = n) (hn31 : n < 2 ^ 31) (hsw : sw < 2 ^ 32) :
    read_message_begin tc ⟨be32 w ++ (be32 n ++ (name ++ (be32 sw ++ rest'))), 0⟩ =
      .ok (⟨name, mt, sview 32 sw⟩,
        if n ≥ tc then ⟨be32 sw ++ rest', 4⟩
        else ⟨be32 w ++ (be32 n ++ (name ++ (be32 sw ++ rest'))), 4 + 4 + n + 4⟩) := by
  have h0 := read_i32_v_at [] w (be32 n ++ (name ++ (be32 sw ++ rest'))) hw
  simp only [List.nil_append, List.length_nil, Nat.zero_add] at h0
  have hfs := read_faststr_at tc (be32 w) name (be32 sw ++ rest') n hn hn31
  have hpre4 : (be32 w).length = 4 := rfl
  rw [hpre4] at hfs
  have hseq1 := read_i32_v_at [] sw rest' hsw
  simp only [List.nil_append, List.length_nil, Nat.zero_add] at hseq1
  have hassoc : be32 w ++ (be32 n ++ (name ++ (be32 sw ++ rest'))) =
      (be32 w ++ be32 n ++ name) ++ (be32 sw ++ rest') := by
    simp [List.append_assoc]
  have hlen2 : (be32 w ++ be32 n ++ name).length = 4 + 4 + n := by
    simp [be32, hn]
    omega
  have hseq2 := read_i32_v_at (be32 w ++ be32 n ++ name) sw rest' hsw
  rw [hlen2, ← hassoc] at hseq2
  simp only [read_message_begin, h0]
  rw [if_neg (by omega)]
  rw [uview_sview32 w hw, hmt]
  simp only
  rw [if_neg (by simp [hver])]
  by_cases htc : n ≥ tc
  · rw [if_pos htc] at hfs
    rw [hfs, if_pos htc]
    simp [hseq1]
  · rw [if_neg htc] at hfs
    rw [hfs, if_neg htc]
    simp [hseq2]

/-- A fully valid message header decodes to its identifier (streaming
reader). -/
theorem a_read_message_begin_ok (w n sw : Nat) (mt : TMessageType)
    (name rest' : List Nat)
    (hw : w < 2 ^ 32) (hneg : sview 32 w ≤ 0)
    (hmt : TMessageType.fromU8 (w &&& 0xf) = some mt)
    (hver : w &&& 0xffff0000 = 0x80010000)
    (hn : name.length = n) (hn31 : n < 2 ^ 31) (hsw : sw < 2 ^ 32) :
    a_read_message_begin (be32 w ++ (be32 n ++ (name ++ (be32 sw ++ rest')))) =
      .ok (⟨name, mt, sview 32 sw⟩, rest') := by
  have h0 := a_read_i32_at w (be32 n ++ (name ++ (be32 sw ++ rest'))) hw
  have hn32 := a_read_i32_at n (name ++ (be32 sw ++ rest')) (by omega)
  have hname := aReadExact_at name (be32 sw ++ rest') n hn
  have hseq := a_read_i32_at sw rest' hsw
  have husize : i32AsUsize (sview 32 n) = n := by
    rw [sview32_ofNat n hn31]
    exact i32AsUsize_ofNat n (by omega)
  simp only [a_read_message_begin, h0]
  rw [if_neg (by omega)]
  rw [uview_sview32 w hw, hmt]
  simp only
  rw [if_neg (by simp [hver])]
  simp only [a_read_faststr, a_read_string, hn32, husize, hname, hseq]

/-! ## C2 -/

/-- C2 counterexample: the header word 0x00000000 has `size = 0 ≤ 0` and
top 16 bits `0x0000 ≠ 0x8001`, so the claim (reading its conditions in
order) requires BadVersion; the code validates the type nibble first and
returns InvalidData. -/
theorem C2_counterexample :
    sview 32 (decBe [0, 0, 0, 0]) ≤ 0 ∧
    (0 : Nat) &&& 0xffff0000 ≠ 0x80010000 ∧
    errKind (read_message_begin 4096 ⟨[0, 0, 0, 0], 0⟩) =
      some DecodeErrorKind.invalidData ∧
    errKind (read_message_begin 4096 ⟨[0, 0, 0, 0], 0⟩) ≠
      some DecodeErrorKind.badVersion := by
  refine ⟨by decide, by decide, by decide, by decide⟩

/-- C2 (amended). Message header decode on both readers, in the code's
check order: `size > 0` fails with BadVersion; with `size ≤ 0`, the type
nibble `size & 0xF` is validated first — an unknown nibble fails with
InvalidData even when the version bits are also wrong; only then, top 16
bits `≠ 0x8001` fails with BadVersion; with all checks passed the name and
sequence number are read and the message identifier returned. -/
theorem C2_message_header_validation (tc w : Nat) (hw : w < 2 ^ 32)
    (rest : List Nat) :
    (0 < sview 32 w →
      errKind (read_message_begin tc ⟨be32 w ++ rest, 0⟩) =
        some DecodeErrorKind.badVersion ∧
      errKind (a_read_message_begin (be32 w ++ rest)) =
        some DecodeErrorKind.badVersion) ∧
    (sview 32 w ≤ 0 → TMessageType.fromU8 (w &&& 0xf) = none →
      errKind (read_message_begin tc ⟨be32 w ++ rest, 0⟩) =
        some DecodeErrorKind.invalidData ∧
      errKind (a_read_message_begin (be32 w ++ rest)) =
        some DecodeErrorKind.invalidData) ∧
    (∀ mt, sview 32 w ≤ 0 → TMessageType.fromU8 (w &&& 0xf) = some mt →
      w &&& 0xffff0000 ≠ 0x80010000 →
      errKind (read_message_begin tc ⟨be32 w ++ rest, 0⟩) =
        some DecodeErrorKind.badVersion ∧
      errKind (a_read_message_begin (be32 w ++ rest)) =
        some DecodeErrorKind.badVersion) ∧
    (∀ mt n sw name rest', sview 32 w ≤ 0 →
      TMessageType.fromU8 (w &&& 0xf) = some mt →
      w &&& 0xffff0000 = 0x80010000 →
      rest = be32 n ++ (name ++ (be32 sw ++ rest')) →
      name.length = n → n < 2 ^ 31 → sw < 2 ^ 32 →
      (∃ st' : ReaderState, read_message_begin tc ⟨be32 w ++ rest, 0⟩ =
        .ok (⟨name, mt, sview 32 sw⟩, st')) ∧
      a_read_message_begin (be32 w ++ rest) =
        .ok (⟨name, mt, sview 32 sw⟩, rest')) := by
  have h0 := read_i32_v_at [] w rest hw
  simp only [List.nil_append, List.length_nil, Nat.zero_add] at h0
  have ha0 := a_read_i32_at w rest hw
  refine ⟨?_, ?_, ?_, ?_⟩
  · intro hpos
    constructor
    · simp only [read_message_begin, h0]
      rw [if_pos hpos]
      rfl
    · simp only [a_read_message_begin, ha0]
      rw [if_pos hpos]
      rfl
  · intro hneg hnib
    constructor
    · simp only [read_message_begin, h0]
      rw [if_neg (by omega), uview_sview32 w hw, hnib]
      rfl
    · simp only [a_read_message_begin, ha0]
      rw [if_neg (by omega), uview_sview32 w hw, hnib]
      rfl
  · intro mt hneg hnib hver
    constructor
    · simp only [read_message_begin, h0]
      rw [if_neg (by omega), uview_sview32 w hw, hnib]
      simp only
      rw [if_pos (by simpa using hver)]
      rfl
    · simp only [a_read_message_begin, ha0]
      rw [if_neg (by omega), uview_sview32 w hw, hnib]
      simp only
      rw [if_pos (by simpa using hver)]
      rfl
  · intro mt n sw name rest' hneg hnib hver hrest hn hn31 hsw
    subst hrest
    constructor
    · exact ⟨_, read_message_begin_ok tc w n sw mt name rest' hw hneg hnib hver
        hn hn31 hsw⟩
    · exact a_read_message_begin_ok w n sw mt name rest' hw hneg hnib hver
        hn hn31 hsw

/-- Witness for C2: the three failure shapes and one success at concrete
header words (positive size; zero word with bad nibble handled in the
counterexample; valid Call header with the name "ping"). -/
theorem C2_message_header_validation_witness :
    errKind (read_message_begin 4096 ⟨be32 1 ++ [], 0⟩) =
      some DecodeErrorKind.badVersion ∧
    errKind (read_message_begin 4096 ⟨be32 0x80010005 ++ [], 0⟩) =
      some DecodeErrorKind.invalidData ∧
    errKind (read_message_begin 4096 ⟨be32 0xffff0001 ++ [], 0⟩) =
      some DecodeErrorKind.badVersion ∧
    a_read_message_begin (be32 0x80010001 ++
        (be32 4 ++ ([0x70, 0x69, 0x6e, 0x67] ++ (be32 7 ++ [])))) =
      .ok (⟨[0x70, 0x69, 0x6e, 0x67], TMessageType.call, sview 32 7⟩, []) := by
  have h := C2_message_header_validation 4096 1 (by norm_num) []
  have h2 := C2_message_header_validation 4096 0x80010005 (by norm_num) []
  have h3 := C2_message_header_validation 4096 0xffff0001 (by norm_num) []
  have h4 := C2_message_header_validation 4096 0x80010001 (by norm_num)
    (be32 4 ++ ([0x70, 0x69, 0x6e, 0x67] ++ (be32 7 ++ [])))
  refine ⟨(h.1 (by decide)).1, (h2.2.1 (by decide) (by decide)).1,
    (h3.2.2.1 TMessageType.call (by decide) (by decide) (by decide)).1,
    (h4.2.2.2 TMessageType.call 4 7 [0x70, 0x69, 0x6e, 0x67] [] (by decide)
      (by decide) (by decide) rfl (by decide) (by decide) (by decide)).2⟩

/-! ## C10 -/

/-- C10. On the zero-copy buffer reader every primitive read other than
the header-validating ones — `read_byte`, `read_i8`, `read_i16`,
`read_i32`, `read_i64`, `read_double`, `read_uuid`, `read_bool`,
`read_string`, `read_faststr`, `read_bytes`, `read_bytes_vec` — returns
`Ok` in every state: their `Err` branch is never produced. -/
theorem C10_infallible_primitive_reads (tc : Nat) (st : ReaderState) :
    isOkE (read_byte st) = true ∧ isOkE (read_i8 st) = true ∧
    isOkE (read_i16 st) = true ∧ isOkE (read_i32 st) = true ∧
    isOkE (read_i64 st) = true ∧ isOkE (read_double st) = true ∧
    isOkE (read_uuid st) = true ∧ isOkE (read_bool st) = true ∧
    isOkE (read_string st) = true ∧ isOkE (read_faststr tc st) = true ∧
    isOkE (read_bytes st) = true ∧ isOkE (read_bytes_vec st) = true := by
  refine ⟨rfl, rfl, rfl, rfl, rfl, rfl, rfl, rfl, rfl, ?_, rfl, rfl⟩
  simp only [read_faststr]
  split_ifs <;> rfl

/-! ## C4 -/

/-- C4 counterexample: with zero-copy enabled and a payload of length 1 at
a threshold of 1 (so the payload is at the threshold), `write_string_len`
returns `4 + 1` but leaves the zero-copy accumulator unchanged at 0; the
claim requires the accumulator to have grown by the payload length. -/
theorem C4_counterexample :
    ([65] : List Nat).length ≥ 1 ∧
    (⟨true, 0⟩ : LenState).zero_copy = true ∧
    (write_string_len [65] ⟨true, 0⟩).1 = 4 + ([65] : List Nat).length ∧
    (write_string_len [65] ⟨true, 0⟩).2.zero_copy_len ≠
      (⟨true, 0⟩ : LenState).zero_copy_len + ([65] : List Nat).length := by
  refine ⟨by decide, rfl, rfl, by decide⟩

/-- C4 (amended). `write_bytes_len`, `write_faststr_len` and
`write_string_len` all return `4 + payload length`; when zero-copy is
enabled and the payload length is at or above the threshold,
`write_bytes_len` and `write_faststr_len` (but not `write_string_len`,
which never touches the accumulator) add the payload length to the
`zero_copy_len` accumulator read back via `zero_copy_len()`, and `reset()`
clears the accumulator. -/
theorem C4_zero_copy_len_accounting (tc : Nat) (st : LenState) (p : List Nat) :
    (write_bytes_len tc p st).1 = 4 + p.length ∧
    (write_faststr_len tc p st).1 = 4 + p.length ∧
    (write_string_len p st).1 = 4 + p.length ∧
    (st.zero_copy = true ∧ p.length ≥ tc →
      (write_bytes_len tc p st).2.zero_copy_len = st.zero_copy_len + p.length ∧
      (write_faststr_len tc p st).2.zero_copy_len = st.zero_copy_len + p.length) ∧
    (¬(st.zero_copy = true ∧ p.length ≥ tc) →
      (write_bytes_len tc p st).2 = st ∧ (write_faststr_len tc p st).2 = st) ∧
    (write_string_len p st).2 = st ∧
    zero_copy_len (write_bytes_len tc p st).2 = (write_bytes_len tc p st).2.zero_copy_len ∧
    (reset st).zero_copy_len = 0 := by
  refine ⟨rfl, rfl, rfl, ?_, ?_, rfl, rfl, rfl⟩
  · rintro ⟨h1, h2⟩
    constructor <;> simp [write_bytes_len, write_faststr_len, h1, h2]
  · intro h
    rw [Decidable.not_and_iff_or_not] at h
    rcases h with h | h
    · have hb : st.zero_copy = false := by
        cases hzc : st.zero_copy
        · rfl
        · exact absurd hzc h
      constructor <;> simp [write_bytes_len, write_faststr_len, hb]
    · have hlt : p.length < tc := by omega
      constructor <;> simp [write_bytes_len, write_faststr_len, Nat.not_le.mpr hlt]

/-- Witness for C4: threshold 1, zero-copy on, payload `[65]`. -/
theorem C4_zero_copy_len_accounting_witness :
    (write_bytes_len 1 [65] ⟨true, 0⟩).1 = 5 ∧
    (write_bytes_len 1 [65] ⟨true, 0⟩).2.zero_copy_len = 1 ∧
    (reset (write_bytes_len 1 [65] ⟨true, 0⟩).2).zero_copy_len = 0 := by
  have h := C4_zero_copy_len_accounting 1 ⟨true, 0⟩ [65]
  exact ⟨h.1, (h.2.2.2.1 (by exact ⟨rfl, by decide⟩)).1, h.2.2.2.2.2.2.2⟩

/-! ## C3 -/

/-- C3 counterexample: with a zero-copy threshold of 5, a 1-byte payload
is below the threshold, yet `read_bytes` detaches it from the buffer
(dropping the consumed front, cursor reset to 0) instead of copying it out
of the window with the cursor advanced to 5 as the claim states. -/
theorem C3_counterexample :
    ([65] : List Nat).length < 5 ∧
    read_bytes ⟨[0, 0, 0, 1, 65, 99], 0⟩ = .ok ([65], ⟨[99], 0⟩) ∧
    (⟨[99], 0⟩ : ReaderState) ≠ (⟨[0, 0, 0, 1, 65, 99], 5⟩ : ReaderState) := by
  refine ⟨by decide, rfl, by decide⟩

/-- C3 (amended). On the zero-copy buffer reader, `read_faststr` follows
the threshold rule: after the 4-byte length prefix, a payload at or above
the threshold is detached (split) from the underlying buffer and a fresh
window re-acquired over the tail, while a payload below the threshold is
copied out of the current window with the cursor advancing past it;
`read_bytes`, however, always detaches the payload regardless of the
threshold. -/
theorem C3_zero_copy_read_threshold (tc : Nat) (pre payload rest : List Nat)
    (n : Nat) (hn : payload.length = n) (hn31 : n < 2 ^ 31) :
    read_faststr tc ⟨pre ++ be32 n ++ payload ++ rest, pre.length⟩ =
      (if n ≥ tc then .ok (payload, ⟨rest, 0⟩)
       else .ok (payload, ⟨pre ++ be32 n ++ payload ++ rest, pre.length + 4 + n⟩)) ∧
    read_bytes ⟨pre ++ be32 n ++ payload ++ rest, pre.length⟩ =
      .ok (payload, ⟨rest, 0⟩) := by
  have hlen4 : (be32 n).length = 4 := rfl
  have hdrop : (pre ++ be32 n ++ payload ++ rest).drop pre.length =
      be32 n ++ (payload ++ rest) := by
    rw [List.append_assoc, List.append_assoc, List.drop_left]
  have hslice : rdSlice ⟨pre ++ be32 n ++ payload ++ rest, pre.length⟩ 4 = be32 n := by
    rw [rdSlice, hdrop]
    exact List.take_left' hlen4
  have hval : sview 32 (decBe (be32 n)) = (n : Int) := by
    rw [decBe_be32 n (by omega)]
    exact sview32_ofNat n hn31
  have husize : i32AsUsize (n : Int) = n := i32AsUsize_ofNat n (by omega)
  have hdrop2 : (pre ++ be32 n ++ payload ++ rest).drop (pre.length + 4) =
      payload ++ rest := by
    have : pre ++ be32 n ++ payload ++ rest = (pre ++ be32 n) ++ (payload ++ rest) := by
      simp [List.append_assoc]
    rw [this]
    exact List.drop_left' (by simp [be32])
  have htake : (payload ++ rest).take n = payload := List.take_left' hn
  have hdropn : (payload ++ rest).drop n = rest := List.drop_left' hn
  constructor
  · simp only [read_faststr, read_i32_v, hslice, hval, husize]
    split
    · simp only [hdrop2, htake, hdropn]
    · simp only [hdrop2, htake]
  · simp only [read_bytes, read_i32_v, hslice, hval, husize, hdrop2, htake, hdropn]

/-- Witness for C3: threshold 2 with payloads of length 1 (copied by
`read_faststr`) and length 2 (detached). -/
theorem C3_zero_copy_read_threshold_witness :
    read_faststr 2 ⟨[0, 0, 0, 1, 65, 99], 0⟩ = .ok ([65], ⟨[0, 0, 0, 1, 65, 99], 5⟩) ∧
    read_faststr 2 ⟨[0, 0, 0, 2, 65, 66, 99], 0⟩ = .ok ([65, 66], ⟨[99], 0⟩) ∧
    read_bytes ⟨[0, 0, 0, 1, 65, 99], 0⟩ = .ok ([65], ⟨[99], 0⟩) := by
  have h1 := C3_zero_copy_read_threshold 2 [] [65] [99] 1 rfl (by norm_num)
  have h2 := C3_zero_copy_read_threshold 2 [] [65, 66] [99] 2 rfl (by norm_num)
  refine ⟨?_, ?_, h1.2⟩
  · have := h1.1
    rw [if_neg (by decide)] at this
    simpa using this
  · have := h2.1
    rw [if_pos (by decide)] at this
    simpa using this

/-! ## C9 -/

/-- C9. Unrecognized wire-type rejection: a type byte with no `TType`
variant makes `read_field_begin`, `read_list_begin`, `read_set_begin` and
`read_map_begin` — on both the buffer reader and the streaming reader —
return an InvalidData error (no panic is modelled: every function is
total); a byte with a corresponding variant parses successfully (the map
case supplies the same valid byte for key and value type). -/
theorem C9_unknown_wire_type (b : Nat) (rest : List Nat) (hrest : 4 ≤ rest.length) :
    (TType.fromU8 b = none →
      errKind (read_field_begin ⟨b :: rest, 0⟩) = some DecodeErrorKind.invalidData ∧
      errKind (read_list_begin ⟨b :: rest, 0⟩) = some DecodeErrorKind.invalidData ∧
      errKind (read_set_begin ⟨b :: rest, 0⟩) = some DecodeErrorKind.invalidData ∧
      errKind (read_map_begin ⟨b :: rest, 0⟩) = some DecodeErrorKind.invalidData ∧
      errKind (a_read_field_begin (b :: rest)) = some DecodeErrorKind.invalidData ∧
      errKind (a_read_list_begin (b :: rest)) = some DecodeErrorKind.invalidData ∧
      errKind (a_read_set_begin (b :: rest)) = some DecodeErrorKind.invalidData ∧
      errKind (a_read_map_begin (b :: rest)) = some DecodeErrorKind.invalidData) ∧
    (∀ t, TType.fromU8 b = some t →
      isOkE (read_field_begin ⟨b :: rest, 0⟩) = true ∧
      isOkE (read_list_begin ⟨b :: rest, 0⟩) = true ∧
      isOkE (read_set_begin ⟨b :: rest, 0⟩) = true ∧
      isOkE (read_map_begin ⟨b :: b :: rest, 0⟩) = true ∧
      isOkE (a_read_field_begin (b :: rest)) = true ∧
      isOkE (a_read_list_begin (b :: rest)) = true ∧
      isOkE (a_read_set_begin (b :: rest)) = true ∧
      isOkE (a_read_map_begin (b :: b :: rest)) = true) := by
  have hb := a_read_byte_cons b rest
  have hb2 := a_read_byte_cons b (b :: rest)
  constructor
  · intro h
    refine ⟨?_, ?_, ?_, ?_, ?_, ?_, ?_, ?_⟩ <;>
      simp [read_field_begin, read_list_begin, read_set_begin, read_map_begin,
        a_read_field_begin, a_read_list_begin, a_read_set_begin, a_read_map_begin,
        read_byte_v, field_type_from_u8, h, hb, hb2, errKind]
  · intro t h
    have hi16 : 2 ≤ rest.length := by omega
    have haexact : aReadExact 2 rest = .ok (rest.take 2, rest.drop 2) := by
      rw [aReadExact, if_pos hi16]
    have haexact4 : aReadExact 4 rest = .ok (rest.take 4, rest.drop 4) := by
      rw [aReadExact, if_pos hrest]
    have hi32 : a_read_i32 rest = .ok (sview 32 (decBe (rest.take 4)), rest.drop 4) := by
      simp [a_read_i32, haexact4]
    have hai16 : a_read_i16 rest = .ok (sview 16 (decBe (rest.take 2)), rest.drop 2) := by
      simp [a_read_i16, haexact]
    refine ⟨?_, ?_, ?_, ?_, ?_, ?_, ?_, ?_⟩ <;>
      cases t <;>
        simp [read_field_begin, read_list_begin, read_set_begin, read_map_begin,
          a_read_field_begin, a_read_list_begin, a_read_set_begin,
          a_read_map_begin, read_byte_v, read_i16_v, read_i32_v,
          field_type_from_u8, h, hb, hb2, hi32, hai16, isOkE]

/-- Witness for C9: byte 5 has no variant (InvalidData on the buffer
reader's list header), byte 8 is I32 (successful parse). -/
theorem C9_unknown_wire_type_witness :
    errKind (read_list_begin ⟨5 :: [0, 0, 0, 0], 0⟩) =
      some DecodeErrorKind.invalidData ∧
    isOkE (read_list_begin ⟨8 :: [0, 0, 0, 0], 0⟩) = true := by
  have h5 := C9_unknown_wire_type 5 [0, 0, 0, 0] (by decide)
  have h8 := C9_unknown_wire_type 8 [0, 0, 0, 0] (by decide)
  exact ⟨(h5.1 (by decide)).2.1, (h8.2 TType.i32 (by decide)).2.1⟩

/-! ## C7 -/

/-- C7. Field Stop: a struct with zero fields (struct begin, field stop,
struct end — the bracketing calls are wire no-ops) encodes to exactly the
single byte 0x00, `write_field_stop` storing the Stop byte at the cursor
and advancing it by 1; decoding via `read_field_begin` yields a field
identifier of type Stop and id 0, consuming exactly one byte with no
2-byte id read. -/
theorem C7_field_stop (buf rest : List Nat) (st : WriterState) :
    (runWrite [.structBegin, .fieldStop, .structEnd] ⟨buf, 0⟩).index = 1 ∧
    (runWrite [.structBegin, .fieldStop, .structEnd] ⟨buf, 0⟩).buf.take 1 = [0] ∧
    write_field_stop st = ⟨setSlice st.buf st.index [0], st.index + 1⟩ ∧
    read_field_begin ⟨0 :: rest, 0⟩ = .ok (⟨TType.stop, 0⟩, ⟨0 :: rest, 1⟩) ∧
    consumedFrom ⟨0 :: rest, 0⟩ ⟨0 :: rest, 1⟩ = 1 := by
  refine ⟨rfl, ?_, rfl, rfl, ?_⟩
  · simp [runWrite, opWrite, write_field_stop, write_byte, emit, setSlice, TType.toU8]
  · simp [consumedFrom]

/-! ## Round-trip helper lemmas -/

theorem uview32_ofNat (n : Nat) (h : n < 2 ^ 32) : uview 32 ((n : Nat) : Int) = n := by
  simp only [uview]
  omega

theorem usizeAsI32_ofNat (n : Nat) (h : n < 2 ^ 31) : usizeAsI32 n = (n : Int) := by
  simp only [usizeAsI32]
  rw [Nat.mod_eq_of_lt (by omega)]
  exact sview32_ofNat n h

/-- One store at the cursor of a partially written buffer. -/
theorem emit_at (bs pre tailb : List Nat) :
    emit bs ⟨pre ++ tailb, pre.length⟩ =
      ⟨pre ++ (bs ++ tailb.drop bs.length), pre.length + bs.length⟩ := by
  simp only [emit, setSlice, List.take_left, List.drop_append bs.length]
  simp [List.append_assoc]

theorem emit_at0 (bs buf : List Nat) :
    emit bs ⟨buf, 0⟩ = ⟨bs ++ buf.drop bs.length, bs.length⟩ := by
  have h := emit_at bs [] buf
  simpa using h

/-- The written prefix of `pre ++ X` of the length of `pre` is `pre`. -/
theorem take_written (pre X : List Nat) (n : Nat) (h : pre.length = n) :
    (pre ++ X).take n = pre :=
  List.take_left' h

/-- `read_string` at a length-prefixed payload: copy out of the window,
cursor past the payload. -/
theorem read_string_at (pre payload rest : List Nat) (n : Nat)
    (hn : payload.length = n) (hn31 : n < 2 ^ 31) :
    read_string ⟨pre ++ (be32 n ++ (payload ++ rest)), pre.length⟩ =
      .ok (payload, ⟨pre ++ (be32 n ++ (payload ++ rest)), pre.length + 4 + n⟩) := by
  have hval : sview 32 (decBe (be32 n)) = (n : Int) := by
    rw [decBe_be32 n (by omega)]
    exact sview32_ofNat n hn31
  have husize : i32AsUsize (n : Int) = n := i32AsUsize_ofNat n (by omega)
  have hdrop2 : (pre ++ (be32 n ++ (payload ++ rest))).drop (pre.length + 4) =
      payload ++ rest := by
    have he : pre ++ (be32 n ++ (payload ++ rest)) =
        (pre ++ be32 n) ++ (payload ++ rest) := by
      simp [List.append_assoc]
    rw [he]
    exact List.drop_left' (by simp [be32])
  simp only [read_string, read_i32_v, rdSlice_at pre (be32 n) (payload ++ rest) 4 rfl,
    hval, husize, hdrop2, List.take_left' hn]

/-- `read_bytes` at a length-prefixed payload: always detach. -/
theorem read_bytes_at (pre payload rest : List Nat) (n : Nat)
    (hn : payload.length = n) (hn31 : n < 2 ^ 31) :
    read_bytes ⟨pre ++ (be32 n ++ (payload ++ rest)), pre.length⟩ =
      .ok (payload, ⟨rest, 0⟩) := by
  have hval : sview 32 (decBe (be32 n)) = (n : Int) := by
    rw [decBe_be32 n (by omega)]
    exact sview32_ofNat n hn31
  have husize : i32AsUsize (n : Int) = n := i32AsUsize_ofNat n (by omega)
  have hdrop2 : (pre ++ (be32 n ++ (payload ++ rest))).drop (pre.length + 4) =
      payload ++ rest := by
    have he : pre ++ (be32 n ++ (payload ++ rest)) =
        (pre ++ be32 n) ++ (payload ++ rest) := by
      simp [List.append_assoc]
    rw [he]
    exact List.drop_left' (by simp [be32])
  simp only [read_bytes, read_i32_v, rdSlice_at pre (be32 n) (payload ++ rest) 4 rfl,
    hval, husize, hdrop2, List.take_left' hn, List.drop_left' hn]

theorem rt_bool (tc : Nat) (b : Bool) (buf rest : List Nat) :
    RoundTrip tc (.bool b) buf rest := by
  have he : encodeValue (.bool b) ⟨buf, 0⟩ =
      ⟨[if b then 1 else 0] ++ buf.drop 1, 1⟩ := by
    cases b <;> simp [encodeValue, write_bool, write_i8, emit_at0, uview]
  refine ⟨by rw [he]; rfl, ⟨(if b then [1] else [0]) ++ rest, 1⟩, ?_, ?_⟩
  · rw [he]
    cases b <;>
      simp [decodeValue, kindOf, read_bool, read_i8_v, encLen, sview, Except.map]
  · rw [he]
    cases b <;> simp [consumedFrom, encLen]

theorem rt_i8 (tc : Nat) (i : Int) (buf rest : List Nat)
    (h1 : -(2 ^ 7) ≤ i) (h2 : i < 2 ^ 7) :
    RoundTrip tc (.i8 i) buf rest := by
  have he : encodeValue (.i8 i) ⟨buf, 0⟩ = ⟨[uview 8 i] ++ buf.drop 1, 1⟩ := by
    simp [encodeValue, write_i8, emit_at0]
  have hu : uview 8 i < 256 := uview_lt 8 i
  have hs : sview 8 (uview 8 i) = i := by
    simp only [sview, uview]
    split <;> omega
  refine ⟨by rw [he]; rfl, ⟨[uview 8 i] ++ rest, 1⟩, ?_, ?_⟩
  · rw [he]
    simp [decodeValue, kindOf, read_i8, read_i8_v, encLen, hs, Except.map]
  · rw [he]
    simp [consumedFrom, encLen]

theorem rt_i16 (tc : Nat) (i : Int) (buf rest : List Nat)
    (h1 : -(2 ^ 15) ≤ i) (h2 : i < 2 ^ 15) :
    RoundTrip tc (.i16 i) buf rest := by
  have he : encodeValue (.i16 i) ⟨buf, 0⟩ =
      ⟨be16 (uview 16 i) ++ buf.drop 2, 2⟩ := by
    simp [encodeValue, write_i16, emit_at0, be16]
  have htake : (be16 (uview 16 i) ++ buf.drop 2).take 2 = be16 (uview 16 i) :=
    take_written _ _ 2 rfl
  have hr := read_i16_v_at [] (uview 16 i) rest (uview_lt 16 i)
  simp only [List.nil_append, List.length_nil, Nat.zero_add] at hr
  refine ⟨by rw [he]; rfl, ⟨be16 (uview 16 i) ++ rest, 2⟩, ?_, ?_⟩
  · rw [he]
    simp only [encLen, htake, decodeValue, kindOf, read_i16, hr, Except.map]
    rw [sview_uview16 i h1 h2]
  · rw [he]
    simp [consumedFrom, encLen, htake, be16]

theorem rt_i32 (tc : Nat) (i : Int) (buf rest : List Nat)
    (h1 : -(2 ^ 31) ≤ i) (h2 : i < 2 ^ 31) :
    RoundTrip tc (.i32 i) buf rest := by
  have he : encodeValue (.i32 i) ⟨buf, 0⟩ =
      ⟨be32 (uview 32 i) ++ buf.drop 4, 4⟩ := by
    simp [encodeValue, write_i32, emit_at0, be32]
  have htake : (be32 (uview 32 i) ++ buf.drop 4).take 4 = be32 (uview 32 i) :=
    take_written _ _ 4 rfl
  have hr := read_i32_v_at [] (uview 32 i) rest (uview_lt 32 i)
  simp only [List.nil_append, List.length_nil, Nat.zero_add] at hr
  refine ⟨by rw [he]; rfl, ⟨be32 (uview 32 i) ++ rest, 4⟩, ?_, ?_⟩
  · rw [he]
    simp only [encLen, htake, decodeValue, kindOf, read_i32, hr, Except.map]
    rw [sview_uview32 i h1 h2]
  · rw [he]
    simp [consumedFrom, encLen, htake, be32]

theorem rt_i64 (tc : Nat) (i : Int) (buf rest : List Nat)
    (h1 : -(2 ^ 63) ≤ i) (h2 : i < 2 ^ 63) :
    RoundTrip tc (.i64 i) buf rest := by
  have he : encodeValue (.i64 i) ⟨buf, 0⟩ =
      ⟨be64 (uview 64 i) ++ buf.drop 8, 8⟩ := by
    simp [encodeValue, write_i64, emit_at0, be64]
  have htake : (be64 (uview 64 i) ++ buf.drop 8).take 8 = be64 (uview 64 i) :=
    take_written _ _ 8 rfl
  have hr := read_i64_v_at [] (uview 64 i) rest (uview_lt 64 i)
  simp only [List.nil_append, List.length_nil, Nat.zero_add] at hr
  refine ⟨by rw [he]; rfl, ⟨be64 (uview 64 i) ++ rest, 8⟩, ?_, ?_⟩
  · rw [he]
    simp only [encLen, htake, decodeValue, kindOf, read_i64, hr, Except.map]
    rw [sview_uview64 i h1 h2]
  · rw [he]
    simp [consumedFrom, encLen, htake, be64]

theorem rt_double (tc : Nat) (bits : Nat) (buf rest : List Nat) (h : bits < 2 ^ 64) :
    RoundTrip tc (.double bits) buf rest := by
  have he : encodeValue (.double bits) ⟨buf, 0⟩ =
      ⟨be64 bits ++ buf.drop 8, 8⟩ := by
    simp [encodeValue, write_double, emit_at0, be64]
  have htake : (be64 bits ++ buf.drop 8).take 8 = be64 bits :=
    take_written _ _ 8 rfl
  have hr := read_double_v_at [] bits rest h
  simp only [List.nil_append, List.length_nil, Nat.zero_add] at hr
  refine ⟨by rw [he]; rfl, ⟨be64 bits ++ rest, 8⟩, ?_, ?_⟩
  · rw [he]
    simp only [encLen, htake, decodeValue, kindOf, read_double, hr, Except.map]
  · rw [he]
    simp [consumedFrom, encLen, htake, be64]

theorem rt_uuid (tc : Nat) (u : List Nat) (buf rest : List Nat) (h : u.length = 16) :
    RoundTrip tc (.uuid u) buf rest := by
  have he : encodeValue (.uuid u) ⟨buf, 0⟩ = ⟨u ++ buf.drop 16, 16⟩ := by
    simp [encodeValue, write_uuid, setSlice, h]
  have htake : (u ++ buf.drop 16).take 16 = u := take_written _ _ 16 h
  have hr := read_uuid_v_at [] u rest h
  simp only [List.nil_append, List.length_nil, Nat.zero_add] at hr
  refine ⟨by rw [he]; rfl, ⟨u ++ rest, 16⟩, ?_, ?_⟩
  · rw [he]
    simp only [encLen, htake, decodeValue, kindOf, read_uuid, hr, Except.map]
  · rw [he]
    simp [consumedFrom, encLen, htake, h]

theorem rt_string (tc : Nat) (s : List Nat) (buf rest : List Nat)
    (h31 : s.length < 2 ^ 31) :
    RoundTrip tc (.string s) buf rest := by
  have hw : uview 32 (usizeAsI32 s.length) = s.length := by
    rw [usizeAsI32_ofNat s.length h31]
    exact uview32_ofNat s.length (by omega)
  have he : encodeValue (.string s) ⟨buf, 0⟩ =
      ⟨be32 s.length ++ (s ++ (buf.drop 4).drop s.length), 4 + s.length⟩ := by
    simp only [encodeValue, write_string, write_i32, hw, emit_at0]
    rw [show ((be32 s.length).length : Nat) = 4 from rfl]
    exact emit_at s (be32 s.length) (buf.drop 4)
  have htake : (be32 s.length ++ (s ++ (buf.drop 4).drop s.length)).take (4 + s.length) =
      be32 s.length ++ s := by
    rw [show (be32 s.length ++ (s ++ (buf.drop 4).drop s.length) : List Nat) =
      (be32 s.length ++ s) ++ (buf.drop 4).drop s.length by simp]
    exact take_written _ _ _ (by simp [be32]; omega)
  have hrd := read_string_at [] s rest s.length rfl h31
  simp only [List.nil_append, List.length_nil, Nat.zero_add] at hrd
  refine ⟨by rw [he]; rfl, ⟨be32 s.length ++ (s ++ rest), 4 + s.length⟩, ?_, ?_⟩
  · rw [he]
    simp only [encLen, htake, decodeValue, kindOf, List.append_assoc, hrd, Except.map]
  · rw [he]
    simp only [encLen, htake, consumedFrom, List.append_assoc]
    simp [be32]

theorem rt_bytes (tc : Nat) (b : List Nat) (buf rest : List Nat)
    (h31 : b.length < 2 ^ 31) :
    RoundTrip tc (.bytes b) buf rest := by
  have hw : uview 32 (usizeAsI32 b.length) = b.length := by
    rw [usizeAsI32_ofNat b.length h31]
    exact uview32_ofNat b.length (by omega)
  have he : encodeValue (.bytes b) ⟨buf, 0⟩ =
      ⟨be32 b.length ++ (b ++ (buf.drop 4).drop b.length), 4 + b.length⟩ := by
    simp only [encodeValue, write_bytes, write_i32, hw, emit_at0]
    rw [show ((be32 b.length).length : Nat) = 4 from rfl]
    exact emit_at b (be32 b.length) (buf.drop 4)
  have htake : (be32 b.length ++ (b ++ (buf.drop 4).drop b.length)).take (4 + b.length) =
      be32 b.length ++ b := by
    rw [show (be32 b.length ++ (b ++ (buf.drop 4).drop b.length) : List Nat) =
      (be32 b.length ++ b) ++ (buf.drop 4).drop b.length by simp]
    exact take_written _ _ _ (by simp [be32]; omega)
  have hrd := read_bytes_at [] b rest b.length rfl h31
  simp only [List.nil_append, List.length_nil, Nat.zero_add] at hrd
  refine ⟨by rw [he]; rfl, ⟨rest, 0⟩, ?_, ?_⟩
  · rw [he]
    simp only [encLen, htake, decodeValue, kindOf, List.append_assoc, hrd, Except.map]
  · rw [he]
    simp only [encLen, htake, consumedFrom, List.append_assoc]
    simp [be32]
    all_goals omega

theorem rt_listHeader (tc : Nat) (et : TType) (sz : Nat) (buf rest : List Nat)
    (h31 : sz < 2 ^ 31) :
    RoundTrip tc (.listHeader ⟨et, sz⟩) buf rest := by
  have hw : uview 32 (usizeAsI32 sz) = sz := by
    rw [usizeAsI32_ofNat sz h31]
    exact uview32_ofNat sz (by omega)
  have he : encodeValue (.listHeader ⟨et, sz⟩) ⟨buf, 0⟩ =
      ⟨et.toU8 :: (be32 sz ++ ((buf.drop 1).drop 4)), 5⟩ := by
    simp only [encodeValue, write_list_begin, write_byte, write_i32, hw, emit_at0,
      List.singleton_append, List.length_singleton]
    have h2 := emit_at (be32 sz) [et.toU8] (buf.drop 1)
    simp only [List.length_singleton, List.singleton_append,
      show ((be32 sz).length : Nat) = 4 from rfl] at h2
    try simp only [Nat.reduceAdd] at h2
    rw [h2]
  have htake : (et.toU8 :: (be32 sz ++ ((buf.drop 1).drop 4))).take 5 =
      et.toU8 :: be32 sz := by
    rw [show (et.toU8 :: (be32 sz ++ ((buf.drop 1).drop 4)) : List Nat) =
      (et.toU8 :: be32 sz) ++ (buf.drop 1).drop 4 by simp]
    exact take_written _ _ _ (by simp [be32])
  have hrb := read_byte_v_at [] et.toU8 (be32 sz ++ rest)
  have hri := read_i32_v_at [et.toU8] sz rest (by omega)
  simp only [List.nil_append, List.length_nil, List.singleton_append,
    List.length_singleton, Nat.zero_add] at hrb hri
  have husz : i32AsUsize (sview 32 sz) = sz := by
    rw [sview32_ofNat sz h31]
    exact i32AsUsize_ofNat sz (by omega)
  refine ⟨by rw [he]; rfl, ⟨et.toU8 :: (be32 sz ++ rest), 5⟩, ?_, ?_⟩
  · rw [he]
    simp only [encLen, htake, decodeValue, kindOf, List.cons_append,
      read_list_begin, hrb, field_type_from_u8, fromU8_toU8, hri, husz, Except.map]
  · rw [he]
    simp [consumedFrom, encLen, htake, be32]

theorem rt_setHeader (tc : Nat) (et : TType) (sz : Nat) (buf rest : List Nat)
    (h31 : sz < 2 ^ 31) :
    RoundTrip tc (.setHeader ⟨et, sz⟩) buf rest := by
  have hw : uview 32 (usizeAsI32 sz) = sz := by
    rw [usizeAsI32_ofNat sz h31]
    exact uview32_ofNat sz (by omega)
  have he : encodeValue (.setHeader ⟨et, sz⟩) ⟨buf, 0⟩ =
      ⟨et.toU8 :: (be32 sz ++ ((buf.drop 1).drop 4)), 5⟩ := by
    simp only [encodeValue, write_set_begin, write_byte, write_i32, hw, emit_at0,
      List.singleton_append, List.length_singleton]
    have h2 := emit_at (be32 sz) [et.toU8] (buf.drop 1)
    simp only [List.length_singleton, List.singleton_append,
      show ((be32 sz).length : Nat) = 4 from rfl] at h2
    try simp only [Nat.reduceAdd] at h2
    rw [h2]
  have htake : (et.toU8 :: (be32 sz ++ ((buf.drop 1).drop 4))).take 5 =
      et.toU8 :: be32 sz := by
    rw [show (et.toU8 :: (be32 sz ++ ((buf.drop 1).drop 4)) : List Nat) =
      (et.toU8 :: be32 sz) ++ (buf.drop 1).drop 4 by simp]
    exact take_written _ _ _ (by simp [be32])
  have hrb := read_byte_v_at [] et.toU8 (be32 sz ++ rest)
  have hri := read_i32_v_at [et.toU8] sz rest (by omega)
  simp only [List.nil_append, List.length_nil, List.singleton_append,
    List.length_singleton, Nat.zero_add] at hrb hri
  have husz : i32AsUsize (sview 32 sz) = sz := by
    rw [sview32_ofNat sz h31]
    exact i32AsUsize_ofNat sz (by omega)
  refine ⟨by rw [he]; rfl, ⟨et.toU8 :: (be32 sz ++ rest), 5⟩, ?_, ?_⟩
  · rw [he]
    simp only [encLen, htake, decodeValue, kindOf, List.cons_append,
      read_set_begin, hrb, field_type_from_u8, fromU8_toU8, hri, husz, Except.map]
  · rw [he]
    simp [consumedFrom, encLen, htake, be32]

theorem rt_mapHeader (tc : Nat) (kt vt : TType) (sz : Nat) (buf rest : List Nat)
    (h31 : sz < 2 ^ 31) :
    RoundTrip tc (.mapHeader ⟨kt, vt, sz⟩) buf rest := by
  have hw : uview 32 (usizeAsI32 sz) = sz := by
    rw [usizeAsI32_ofNat sz h31]
    exact uview32_ofNat sz (by omega)
  have he : encodeValue (.mapHeader ⟨kt, vt, sz⟩) ⟨buf, 0⟩ =
      ⟨kt.toU8 :: (vt.toU8 :: (be32 sz ++ (((buf.drop 1).drop 1).drop 4))), 6⟩ := by
    simp only [encodeValue, write_map_begin, write_byte, write_i32, hw, emit_at0,
      List.singleton_append, List.length_singleton]
    have h1 := emit_at [vt.toU8] [kt.toU8] (buf.drop 1)
    simp only [List.length_singleton, List.singleton_append] at h1
    try simp only [Nat.reduceAdd] at h1
    rw [h1]
    have h2 := emit_at (be32 sz) [kt.toU8, vt.toU8] ((buf.drop 1).drop 1)
    simp only [List.length_cons, List.length_singleton, List.cons_append,
      List.singleton_append, List.nil_append, List.length_nil, Nat.zero_add,
      show ((be32 sz).length : Nat) = 4 from rfl] at h2
    try simp only [Nat.reduceAdd] at h2
    rw [h2]
  have htake : (kt.toU8 :: (vt.toU8 :: (be32 sz ++ (((buf.drop 1).drop 1).drop 4)))).take 6 =
      kt.toU8 :: vt.toU8 :: be32 sz := by
    rw [show (kt.toU8 :: (vt.toU8 :: (be32 sz ++ (((buf.drop 1).drop 1).drop 4))) : List Nat) =
      (kt.toU8 :: vt.toU8 :: be32 sz) ++ ((buf.drop 1).drop 1).drop 4 by simp]
    exact take_written _ _ _ (by simp [be32])
  have hrb1 := read_byte_v_at [] kt.toU8 (vt.toU8 :: (be32 sz ++ rest))
  have hrb2 := read_byte_v_at [kt.toU8] vt.toU8 (be32 sz ++ rest)
  have hri := read_i32_v_at [kt.toU8, vt.toU8] sz rest (by omega)
  simp only [List.nil_append, List.length_nil, List.singleton_append,
    List.length_singleton, List.length_cons, List.cons_append, Nat.zero_add] at hrb1 hrb2 hri
  have husz : i32AsUsize (sview 32 sz) = sz := by
    rw [sview32_ofNat sz h31]
    exact i32AsUsize_ofNat sz (by omega)
  refine ⟨by rw [he]; rfl, ⟨kt.toU8 :: vt.toU8 :: (be32 sz ++ rest), 6⟩, ?_, ?_⟩
  · rw [he]
    simp only [encLen, htake, decodeValue, kindOf, List.cons_append,
      read_map_begin, hrb1, hrb2, field_type_from_u8, fromU8_toU8, hri, husz, Except.map]
  · rw [he]
    simp [consumedFrom, encLen, htake, be32]

theorem rt_fieldHeader (tc : Nat) (ft : TType) (id : Int) (buf rest : List Nat)
    (hft : ft ≠ .stop) (h1 : -(2 ^ 15) ≤ id) (h2 : id < 2 ^ 15) :
    RoundTrip tc (.fieldHeader ft id) buf rest := by
  have he : encodeValue (.fieldHeader ft id) ⟨buf, 0⟩ =
      ⟨ft.toU8 :: (be16 (uview 16 id) ++ buf.drop 3), 3⟩ := by
    simp only [encodeValue, write_field_begin, emit_at0, List.cons_append,
      List.length_cons, show ((be16 (uview 16 id)).length : Nat) = 2 from rfl]
  have htake : (ft.toU8 :: (be16 (uview 16 id) ++ buf.drop 3)).take 3 =
      ft.toU8 :: be16 (uview 16 id) := by
    rw [show (ft.toU8 :: (be16 (uview 16 id) ++ buf.drop 3) : List Nat) =
      (ft.toU8 :: be16 (uview 16 id)) ++ buf.drop 3 by simp]
    exact take_written _ _ _ (by simp [be16])
  have hrb := read_byte_v_at [] ft.toU8 (be16 (uview 16 id) ++ rest)
  have hri := read_i16_v_at [ft.toU8] (uview 16 id) rest (uview_lt 16 id)
  simp only [List.nil_append, List.length_nil, List.singleton_append,
    List.length_singleton, Nat.zero_add] at hrb hri
  have hsid : sview 16 (uview 16 id) = id := sview_uview16 id h1 h2
  refine ⟨by rw [he]; rfl, ⟨ft.toU8 :: (be16 (uview 16 id) ++ rest), 3⟩, ?_, ?_⟩
  · rw [he]
    simp only [encLen, htake, decodeValue, kindOf, List.cons_append]
    cases ft <;>
      first
        | exact absurd rfl hft
        | simp only [read_field_begin, hrb, fromU8_toU8, hri, hsid, Except.map]
  · rw [he]
    simp [consumedFrom, encLen, htake, be16]

theorem rt_message (tc : Nat) (mt : TMessageType) (name : List Nat) (seq : Int)
    (buf rest : List Nat) (hn31 : name.length < 2 ^ 31)
    (hs1 : -(2 ^ 31) ≤ seq) (hs2 : seq < 2 ^ 31) :
    RoundTrip tc (.message ⟨name, mt, seq⟩) buf rest := by
  have hV32 : (0x80010000 ||| TMessageType.toU8 mt) < 2 ^ 32 := by
    cases mt <;> decide
  have hVv : uview 32 (sview 32 (0x80010000 ||| TMessageType.toU8 mt)) =
      0x80010000 ||| TMessageType.toU8 mt := uview_sview32 _ hV32
  have hw : uview 32 (usizeAsI32 name.length) = name.length := by
    rw [usizeAsI32_ofNat name.length hn31]
    exact uview32_ofNat name.length (by omega)
  have hsv : sview 32 (uview 32 seq) = seq := sview_uview32 seq hs1 hs2
  have he : encodeValue (.message ⟨name, mt, seq⟩) ⟨buf, 0⟩ =
      ⟨be32 (0x80010000 ||| TMessageType.toU8 mt) ++ (be32 name.length ++
        (name ++ (be32 (uview 32 seq) ++
          ((((buf.drop 4).drop 4).drop name.length).drop 4)))),
        4 + 4 + name.length + 4⟩ := by
    simp only [encodeValue, write_message_begin, write_faststr, write_i32, hVv, hw,
      emit_at0, show ((be32 (0x80010000 ||| TMessageType.toU8 mt)).length : Nat) = 4
        from rfl]
    have h2 := emit_at (be32 name.length)
      (be32 (0x80010000 ||| TMessageType.toU8 mt)) (buf.drop 4)
    simp only [show ((be32 (0x80010000 ||| TMessageType.toU8 mt)).length : Nat) = 4
      from rfl, show ((be32 name.length).length : Nat) = 4 from rfl] at h2
    try simp only [Nat.reduceAdd] at h2
    rw [h2]
    have hpre2 : be32 (0x80010000 ||| TMessageType.toU8 mt) ++
        (be32 name.length ++ ((buf.drop 4).drop 4)) =
        (be32 (0x80010000 ||| TMessageType.toU8 mt) ++ be32 name.length) ++
          ((buf.drop 4).drop 4) := by
      simp [List.append_assoc]
    rw [hpre2, show (8 : Nat) =
      (be32 (0x80010000 ||| TMessageType.toU8 mt) ++ be32 name.length).length
      by simp [be32]]
    rw [emit_at name _ _]
    have hpre3 : (be32 (0x80010000 ||| TMessageType.toU8 mt) ++ be32 name.length) ++
        (name ++ (((buf.drop 4).drop 4).drop name.length)) =
        ((be32 (0x80010000 ||| TMessageType.toU8 mt) ++ be32 name.length) ++ name) ++
          (((buf.drop 4).drop 4).drop name.length) := by
      simp [List.append_assoc]
    rw [hpre3]
    rw [show (be32 (0x80010000 ||| TMessageType.toU8 mt) ++ be32 name.length).length +
        name.length =
      ((be32 (0x80010000 ||| TMessageType.toU8 mt) ++ be32 name.length) ++ name).length
      by simp; omega]
    rw [emit_at (be32 (uview 32 seq)) _ _]
    simp [be32, List.append_assoc]
    omega
  have htake : (be32 (0x80010000 ||| TMessageType.toU8 mt) ++ (be32 name.length ++
      (name ++ (be32 (uview 32 seq) ++
        ((((buf.drop 4).drop 4).drop name.length).drop 4))))).take
      (4 + (4 + name.length) + 4) =
      be32 (0x80010000 ||| TMessageType.toU8 mt) ++ (be32 name.length ++
        (name ++ be32 (uview 32 seq))) := by
    rw [show (be32 (0x80010000 ||| TMessageType.toU8 mt) ++ (be32 name.length ++
      (name ++ (be32 (uview 32 seq) ++
        ((((buf.drop 4).drop 4).drop name.length).drop 4)))) : List Nat) =
      (be32 (0x80010000 ||| TMessageType.toU8 mt) ++ (be32 name.length ++
        (name ++ be32 (uview 32 seq)))) ++
        ((((buf.drop 4).drop 4).drop name.length).drop 4) by simp [List.append_assoc]]
    exact take_written _ _ _ (by simp [be32]; omega)
  have hok := read_message_begin_ok tc (0x80010000 ||| TMessageType.toU8 mt)
    name.length (uview 32 seq) mt name rest hV32
    (by cases mt <;> decide) (by cases mt <;> decide) (by cases mt <;> decide)
    rfl hn31 (uview_lt 32 seq)
  refine ⟨by rw [he]; simp only [encLen]; omega,
    if name.length ≥ tc
      then ⟨be32 (uview 32 seq) ++ rest, 4⟩
      else ⟨be32 (0x80010000 ||| TMessageType.toU8 mt) ++ (be32 name.length ++
        (name ++ (be32 (uview 32 seq) ++ rest))), 4 + 4 + name.length + 4⟩,
    ?_, ?_⟩
  · rw [he]
    simp only [encLen, htake, decodeValue, kindOf, List.append_assoc, hok, hsv,
      Except.map]
  · rw [he]
    simp only [encLen, htake, List.append_assoc]
    by_cases htc : name.length ≥ tc
    · rw [if_pos htc]
      simp [consumedFrom, be32]
      omega
    · rw [if_neg htc]
      simp [consumedFrom, be32]
      omega

/-! ## C5 -/

/-- C5. Round-trip: for every supported value — fixed-width scalars, bool,
string, bytes, uuid, list/set/map headers, non-Stop field headers and
message envelopes, well formed per their Rust types — decoding the bytes
produced by the matching encode call on an adequately sized buffer yields
the original value, and the reader consumes exactly as many bytes as the
writer's cursor advanced. -/
theorem C5_round_trip (tc : Nat) (v : TValue) (buf rest : List Nat)
    (hwf : wfValue v) (hcap : encLen v ≤ buf.length) :
    RoundTrip tc v buf rest := by
  cases v with
  | bool b => exact rt_bool tc b buf rest
  | i8 i => exact rt_i8 tc i buf rest hwf.1 hwf.2
  | i16 i => exact rt_i16 tc i buf rest hwf.1 hwf.2
  | i32 i => exact rt_i32 tc i buf rest hwf.1 hwf.2
  | i64 i => exact rt_i64 tc i buf rest hwf.1 hwf.2
  | double bits => exact rt_double tc bits buf rest hwf
  | string s => exact rt_string tc s buf rest hwf
  | bytes b => exact rt_bytes tc b buf rest hwf
  | uuid u => exact rt_uuid tc u buf rest hwf
  | listHeader idn =>
    obtain ⟨et, sz⟩ := idn
    exact rt_listHeader tc et sz buf rest hwf
  | setHeader idn =>
    obtain ⟨et, sz⟩ := idn
    exact rt_setHeader tc et sz buf rest hwf
  | mapHeader idn =>
    obtain ⟨kt, vt, sz⟩ := idn
    exact rt_mapHeader tc kt vt sz buf rest hwf
  | fieldHeader ft id =>
    exact rt_fieldHeader tc ft id buf rest hwf.1 hwf.2.1 hwf.2.2
  | message idn =>
    obtain ⟨nm, mt, sq⟩ := idn
    exact rt_message tc mt nm sq buf rest hwf.1 hwf.2.1 hwf.2.2

/-- Witness for C5: the message `{name: "ping", type: Call, seq: 7}` round
trips through a 17-byte buffer at the default threshold. -/
theorem C5_round_trip_witness :
    RoundTrip 4096
      (.message ⟨[0x70, 0x69, 0x6e, 0x67], TMessageType.call, 7⟩)
      (List.replicate 17 0) [] :=
  C5_round_trip 4096 _ _ []
    ⟨by decide, by decide, by decide⟩ (by decide)

/-! ## C8 -/

/-- C8. End-to-end: encoding the message identifier
`{name: "ping", type: Call, seq: 7}` followed by a field stop into a
17-byte buffer produces exactly
`80 01 00 01 | 00 00 00 04 | 70 69 6E 67 | 00 00 00 07 | 00`, and
decoding those 17 bytes (at any threshold) reproduces the same message
identifier and then a field-begin of type Stop and id 0. -/
theorem C8_end_to_end (tc : Nat) :
    (write_field_stop (write_message_begin ⟨[0x70, 0x69, 0x6e, 0x67],
        TMessageType.call, 7⟩ ⟨List.replicate 17 0, 0⟩)).buf =
      [0x80, 0x01, 0x00, 0x01, 0x00, 0x00, 0x00, 0x04,
       0x70, 0x69, 0x6e, 0x67, 0x00, 0x00, 0x00, 0x07, 0x00] ∧
    (write_field_stop (write_message_begin ⟨[0x70, 0x69, 0x6e, 0x67],
        TMessageType.call, 7⟩ ⟨List.replicate 17 0, 0⟩)).index = 17 ∧
    (∃ st' st'' : ReaderState,
      read_message_begin tc
          ⟨[0x80, 0x01, 0x00, 0x01, 0x00, 0x00, 0x00, 0x04,
            0x70, 0x69, 0x6e, 0x67, 0x00, 0x00, 0x00, 0x07, 0x00], 0⟩ =
        .ok (⟨[0x70, 0x69, 0x6e, 0x67], TMessageType.call, 7⟩, st') ∧
      read_field_begin st' = .ok (⟨TType.stop, 0⟩, st'')) := by
  refine ⟨by decide, by decide, ?_⟩
  have hmsg : ([0x80, 0x01, 0x00, 0x01, 0x00, 0x00, 0x00, 0x04,
      0x70, 0x69, 0x6e, 0x67, 0x00, 0x00, 0x00, 0x07, 0x00] : List Nat) =
      be32 0x80010001 ++ (be32 4 ++ ([0x70, 0x69, 0x6e, 0x67] ++
        (be32 7 ++ [0]))) := by decide
  have hok := read_message_begin_ok tc 0x80010001 4 7 TMessageType.call
    [0x70, 0x69, 0x6e, 0x67] [0] (by decide) (by decide) (by decide) (by decide)
    (by decide) (by decide) (by decide)
  have hsv7 : sview 32 (7 : Nat) = (7 : Int) := by decide
  rw [hsv7] at hok
  by_cases htc : (4 : Nat) ≥ tc
  · rw [if_pos htc] at hok
    refine ⟨⟨be32 7 ++ [0], 4⟩, ⟨be32 7 ++ [0], 5⟩, ?_,
      by simp [read_field_begin, read_byte_v, be32, TType.fromU8]⟩
    rw [hmsg]
    exact hok
  · rw [if_neg htc] at hok
    refine ⟨⟨be32 0x80010001 ++ (be32 4 ++ ([0x70, 0x69, 0x6e, 0x67] ++
      (be32 7 ++ [0]))), 4 + 4 + 4 + 4⟩,
      ⟨be32 0x80010001 ++ (be32 4 ++ ([0x70, 0x69, 0x6e, 0x67] ++
        (be32 7 ++ [0]))), 4 + 4 + 4 + 4 + 1⟩, ?_,
      by simp [read_field_begin, read_byte_v, be32, TType.fromU8]⟩
    rw [hmsg]
    exact hok

/-! ## C6 -/

/-- C6. Chained-writer zero-copy splice: after the 4-byte length prefix
(cursor at `index + 4`), a payload at or above the threshold with
zero-copy enabled commits the already-written prefix of the current tail
(`index` bytes) to the chain, appends the payload as a new chain segment
by reference — the tail never receives its bytes — and resets the cursor
to 0 over a freshly acquired window (the tail's remaining capacity); below
the threshold the chain is untouched, the payload bytes are copied into
the tail at the cursor and the cursor advances by the payload length.
`write_faststr` behaves identically. -/
theorem C6_chained_zero_copy_splice (tc : Nat) (zc : Bool) (p : List Nat)
    (st : LBState) :
    (lb_write_i32 (usizeAsI32 p.length) st).index = st.index + 4 ∧
    (zc = true → p.length ≥ tc →
      (lb_write_bytes tc zc p st).chain = st.chain ++
        [Seg.copied ((lb_write_i32 (usizeAsI32 p.length) st).tail.take
          ((lb_write_i32 (usizeAsI32 p.length) st).index)),
         Seg.spliced p] ∧
      (lb_write_bytes tc zc p st).index = 0 ∧
      (lb_write_bytes tc zc p st).tail =
        (lb_write_i32 (usizeAsI32 p.length) st).tail.drop
          ((lb_write_i32 (usizeAsI32 p.length) st).index)) ∧
    (¬(zc = true ∧ p.length ≥ tc) →
      (lb_write_bytes tc zc p st).chain = st.chain ∧
      (lb_write_bytes tc zc p st).index = st.index + 4 + p.length ∧
      (lb_write_bytes tc zc p st).tail =
        setSlice (lb_write_i32 (usizeAsI32 p.length) st).tail (st.index + 4) p) ∧
    lb_write_faststr tc zc p st = lb_write_bytes tc zc p st := by
  refine ⟨by simp [lb_write_i32, lbEmit, be32], ?_, ?_, rfl⟩
  · intro hzc hth
    simp [lb_write_bytes, lb_insert, lb_write_i32, lbEmit, be32, hzc, hth]
  · intro h
    have hcond : ¬(zc = true ∧ tc ≤ p.length) := h
    simp only [lb_write_bytes, lb_insert, lb_write_i32, lbEmit]
    rw [if_neg (by simpa [Bool.and_eq_true, decide_eq_true_eq] using hcond)]
    simp [be32]

/-- Witness for C6: threshold 1 with payload `[7, 7]` spliced (zero-copy
on) and copied (zero-copy off). -/
theorem C6_chained_zero_copy_splice_witness :
    (lb_write_bytes 1 true [7, 7] ⟨[], [9, 9, 9, 9, 9, 9, 9, 9], 0⟩).chain =
      [Seg.copied [0, 0, 0, 2], Seg.spliced [7, 7]] ∧
    (lb_write_bytes 1 true [7, 7] ⟨[], [9, 9, 9, 9, 9, 9, 9, 9], 0⟩).index = 0 ∧
    (lb_write_bytes 1 false [7, 7] ⟨[], [9, 9, 9, 9, 9, 9, 9, 9], 0⟩).chain = [] ∧
    (lb_write_bytes 1 false [7, 7] ⟨[], [9, 9, 9, 9, 9, 9, 9, 9], 0⟩).index = 6 := by
  have h1 := C6_chained_zero_copy_splice 1 true [7, 7] ⟨[], [9, 9, 9, 9, 9, 9, 9, 9], 0⟩
  have h2 := C6_chained_zero_copy_splice 1 false [7, 7] ⟨[], [9, 9, 9, 9, 9, 9, 9, 9], 0⟩
  obtain ⟨-, hs, -, -⟩ := h1
  obtain ⟨-, -, hc, -⟩ := h2
  have hs' := hs rfl (by decide)
  have hc' := hc (by simp)
  refine ⟨?_, hs'.2.1, ?_, ?_⟩
  · rw [hs'.1]
    decide
  · rw [hc'.1]
  · rw [hc'.2.1]
    decide

end Pilota
